import Mathlib

/-!
# Verification of the limit order book matching core (`src/Source.cpp`)

Shallow embedding of the order book:

* `OrderType`, `Side`, `Order`, `OrderModify`, `TradeInfo`, `Trade`,
  `LevelInfo`, `OrderBookLevelInfos` mirror the C++ types.
* The book's `std::map<Price, OrderPointers, greater>` / `less` are embedded
  as association lists sorted descending (bids) / ascending (asks); each
  value is the FIFO queue of resting orders at that price (front = head).
* The registry `std::unordered_map<OrderId, OrderEntry>` is embedded as a
  list of `(OrderId, OrderEntry)` pairs.  The C++ entry holds a shared
  pointer into the queue plus an iterator; the fields the code ever reads
  from a registry entry are the order's immutable side, price and order
  type (`CancelOrder` reads side and price, `MatchOrder` reads the order
  type), so the entry keeps exactly those, and the iterator-based O(1)
  erasure is embedded as erasure of the (unique) order with that id from
  the recorded level.

Quantities are `Nat` (C++ `uint32_t`; no claim concerns wraparound) and
prices `Int` (C++ `int32_t`).
-/

/-- C++ `enum class OrderType`. -/
inductive OrderType where
  | GoodTillCancel
  | FillAndKill
deriving DecidableEq, Repr

/-- C++ `enum class Side`. -/
inductive Side where
  | Buy
  | Sell
deriving DecidableEq, Repr

abbrev Price := Int
abbrev Quantity := Nat
abbrev OrderId := Nat

/-- C++ `class Order`: identity plus mutable fill state. -/
structure Order where
  order_type : OrderType
  order_id : OrderId
  side : Side
  price : Price
  initial_quantity : Quantity
  remaining_quantity : Quantity
deriving DecidableEq, Repr

/-- `Order::GetFilledQuantity`. -/
def Order.GetFilledQuantity (o : Order) : Quantity :=
  o.initial_quantity - o.remaining_quantity

/-- `Order::IsFilled`. -/
def Order.IsFilled (o : Order) : Bool :=
  o.remaining_quantity == 0

/-- `Order::Fill`: throws `std::logic_error` when asked to fill more than
the remaining quantity, else decrements the remaining quantity.  The
exception is embedded as `none`. -/
def Order.Fill (o : Order) (quantity : Quantity) : Option Order :=
  if quantity > o.remaining_quantity then
    none
  else
    some { o with remaining_quantity := o.remaining_quantity - quantity }

/-- C++ `class OrderModify`. -/
structure OrderModify where
  order_id : OrderId
  side : Side
  price : Price
  quantity : Quantity
deriving DecidableEq, Repr

/-- `OrderModify::ToOrderPointer`: builds a fresh order of the given type. -/
def OrderModify.ToOrderPointer (m : OrderModify) (type : OrderType) : Order :=
  { order_type := type, order_id := m.order_id, side := m.side,
    price := m.price, initial_quantity := m.quantity,
    remaining_quantity := m.quantity }

/-- C++ `struct TradeInfo`. -/
structure TradeInfo where
  order_id : OrderId
  price : Price
  quantity : Quantity
deriving DecidableEq, Repr

/-- C++ `class Trade`: one match, a bid leg and an ask leg. -/
structure Trade where
  bid_trade : TradeInfo
  ask_trade : TradeInfo
deriving DecidableEq, Repr

abbrev Trades := List Trade

/-- C++ `struct LevelInfo`. -/
structure LevelInfo where
  price : Price
  quantity : Quantity
deriving DecidableEq, Repr

abbrev LevelInfos := List LevelInfo

/-- C++ `class OrderBookLevelInfos`. -/
structure OrderBookLevelInfos where
  bids : LevelInfos
  asks : LevelInfos
deriving DecidableEq, Repr

/-- A price level: the price and the FIFO queue of resting orders at it
(list head = queue front). -/
abbrev Level := Price × List Order

/-- Registry entry (`OrderBook::OrderEntry`): the C++ entry is a shared
pointer to the order plus its queue iterator.  The code reads only the
order's immutable side, price and order type through a registry entry, so
those are what the embedding records; the iterator is recovered from the
order id, unique in the book. -/
structure OrderEntry where
  side : Side
  price : Price
  order_type : OrderType
deriving DecidableEq, Repr

/-- C++ `class OrderBook`: bids sorted descending by price, asks sorted
ascending, and the id registry. -/
structure OrderBook where
  bids : List Level
  asks : List Level
  orders : List (OrderId × OrderEntry)
deriving DecidableEq, Repr

/-- `orders_.contains(id)`. -/
def OrderBook.containsId (b : OrderBook) (id : OrderId) : Bool :=
  b.orders.any (fun e => e.1 == id)

/-- `orders_.at(id)` (the entry; `none` is the unreachable lookup miss). -/
def lookupEntry (orders : List (OrderId × OrderEntry)) (id : OrderId) :
    Option OrderEntry :=
  (orders.find? (fun e => e.1 == id)).map (fun e => e.2)

/-- `orders_.erase(id)`. -/
def eraseEntry (orders : List (OrderId × OrderEntry)) (id : OrderId) :
    List (OrderId × OrderEntry) :=
  orders.eraseP (fun e => e.1 == id)

/-- `OrderBook::Size`. -/
def OrderBook.Size (b : OrderBook) : Nat :=
  b.orders.length

/-- `OrderBook::CanMatch`. -/
def OrderBook.CanMatch (b : OrderBook) (side : Side) (price : Price) : Bool :=
  match side with
  | Side.Buy =>
    match b.asks with
    | [] => false
    | (best_ask, _) :: _ => price ≥ best_ask
  | Side.Sell =>
    match b.bids with
    | [] => false
    | (best_bid, _) :: _ => price ≤ best_bid

/-- Total number of orders resting in a side's levels. -/
def levelsCount (levels : List Level) : Nat :=
  (levels.map (fun l => l.2.length)).sum

lemma levelsCount_cons_if (p : Price) (q : List Order) (rest : List Level) :
    levelsCount (if q.isEmpty then rest else (p, q) :: rest) =
      q.length + levelsCount rest := by
  cases q <;> simp [levelsCount]

/-- `OrderBook::MatchOrders` (lines 191-244).  One iteration of the inner
`while` loop: the front orders of the two best levels are filled by the
minimum of their remaining quantities (the `Order::Fill` guard is provably
satisfied by that minimum — see `Fill_min_succeeds` — so the fill is its
success path), filled orders are popped from their queue and erased from
the registry, emptied levels are erased from their map, and the trade is
recorded with each front order's id and price.  The outer loop's break
conditions (an empty side, or `bid_price < ask_price`) are the non-recursive
branches.  The post-loop FillAndKill cleanup (lines 228-242) performs no
state change: both `CancelOrder` calls are commented out in the source.
The catch-all branch also covers a best level with an empty queue, a state
every book operation provably avoids (levels are erased as soon as their
queue empties). -/
def OrderBook.MatchOrders (b : OrderBook) : Trades × OrderBook :=
  match hb : b.bids, ha : b.asks with
  | (bid_price, bid :: bids_tail) :: rest_bids,
    (ask_price, ask :: asks_tail) :: rest_asks =>
    if bid_price < ask_price then ([], b)
    else
      let quantity := min bid.remaining_quantity ask.remaining_quantity
      let bid_after := { bid with
        remaining_quantity := bid.remaining_quantity - quantity }
      let ask_after := { ask with
        remaining_quantity := ask.remaining_quantity - quantity }
      let orders1 := if bid_after.remaining_quantity = 0 then
        eraseEntry b.orders bid.order_id else b.orders
      let orders2 := if ask_after.remaining_quantity = 0 then
        eraseEntry orders1 ask.order_id else orders1
      let bid_queue := if bid_after.remaining_quantity = 0 then bids_tail
        else bid_after :: bids_tail
      let ask_queue := if ask_after.remaining_quantity = 0 then asks_tail
        else ask_after :: asks_tail
      let new_bids := if bid_queue.isEmpty then rest_bids
        else (bid_price, bid_queue) :: rest_bids
      let new_asks := if ask_queue.isEmpty then rest_asks
        else (ask_price, ask_queue) :: rest_asks
      let rest := OrderBook.MatchOrders
        { bids := new_bids, asks := new_asks, orders := orders2 }
      (Trade.mk (TradeInfo.mk bid.order_id bid.price quantity)
        (TradeInfo.mk ask.order_id ask.price quantity) :: rest.1, rest.2)
  | _, _ => ([], b)
termination_by levelsCount b.bids + levelsCount b.asks
decreasing_by
  rw [hb, ha]
  simp only [dite_eq_ite]
  rw [levelsCount_cons_if, levelsCount_cons_if]
  simp only [levelsCount, List.map_cons, List.sum_cons]
  have key : bid.remaining_quantity -
        min bid.remaining_quantity ask.remaining_quantity = 0 ∨
      ask.remaining_quantity -
        min bid.remaining_quantity ask.remaining_quantity = 0 := by
    rcases min_choice bid.remaining_quantity ask.remaining_quantity with h | h
    · exact Or.inl (by rw [h, Nat.sub_self])
    · exact Or.inr (by rw [h, Nat.sub_self])
  split <;> split <;> simp_all
  all_goals omega

/-- `bids_[price].push_back(order)` / `asks_[price].push_back(order)`: the
sorted map (ordered by the comparator `cmp`, `std::greater` for bids and
`std::less` for asks) creates the level if absent and appends the order at
the back of its queue. -/
def insertLevels (cmp : Price → Price → Bool) (levels : List Level)
    (o : Order) : List Level :=
  match levels with
  | [] => [(o.price, [o])]
  | (p, q) :: rest =>
    if cmp o.price p then (o.price, [o]) :: (p, q) :: rest
    else if o.price = p then (p, q ++ [o]) :: rest
    else (p, q) :: insertLevels cmp rest o

/-- Insert into the bid side (`std::map<Price, ..., std::greater<Price>>`). -/
def insertBid (levels : List Level) (o : Order) : List Level :=
  insertLevels (fun x y => x > y) levels o

/-- Insert into the ask side (`std::map<Price, ..., std::less<Price>>`). -/
def insertAsk (levels : List Level) (o : Order) : List Level :=
  insertLevels (fun x y => x < y) levels o

/-- `OrderBook::AddOrder` (lines 246-271): duplicate-id no-op, FillAndKill
rejection when it cannot match, otherwise insertion at the back of the
price level on the order's side, registration, and the matching loop. -/
def OrderBook.AddOrder (b : OrderBook) (o : Order) : Trades × OrderBook :=
  if b.containsId o.order_id then ([], b)
  else if o.order_type = OrderType.FillAndKill &&
      !(b.CanMatch o.side o.price) then ([], b)
  else
    let b1 := match o.side with
      | Side.Buy => { b with bids := insertBid b.bids o }
      | Side.Sell => { b with asks := insertAsk b.asks o }
    let b2 := { b1 with orders := (o.order_id,
      OrderEntry.mk o.side o.price o.order_type) :: b1.orders }
    b2.MatchOrders

/-- Erase the order with the given id from the queue at `price` (the
iterator-based `orders.erase(iterator)`), dropping the level if its queue
empties.  A missing level would be `asks_.at(price)` throwing in C++; it is
unreachable because every registry entry records the level its order is
queued at. -/
def removeFromLevels (levels : List Level) (price : Price) (id : OrderId) :
    List Level :=
  match levels with
  | [] => []
  | (p, q) :: rest =>
    if p = price then
      let q' := q.eraseP (fun o => o.order_id == id)
      if q'.isEmpty then rest else (p, q') :: rest
    else (p, q) :: removeFromLevels rest price id

/-- `OrderBook::CancelOrder` (lines 273-292). -/
def OrderBook.CancelOrder (b : OrderBook) (order_id : OrderId) : OrderBook :=
  if !(b.containsId order_id) then b
  else
    match lookupEntry b.orders order_id with
    | none => b
    | some entry =>
      let b1 := { b with orders := eraseEntry b.orders order_id }
      match entry.side with
      | Side.Sell =>
        { b1 with asks := removeFromLevels b1.asks entry.price order_id }
      | Side.Buy =>
        { b1 with bids := removeFromLevels b1.bids entry.price order_id }

/-- `OrderBook::MatchOrder` (lines 294-300): the modify operation.  Unknown
id is a no-op; otherwise the existing order's type is captured, the order
is canceled, and a fresh order with the supplied side/price/quantity is
submitted through `AddOrder`. -/
def OrderBook.MatchOrder (b : OrderBook) (m : OrderModify) :
    Trades × OrderBook :=
  if !(b.containsId m.order_id) then ([], b)
  else
    match lookupEntry b.orders m.order_id with
    | none => ([], b)
    | some entry =>
      let b1 := b.CancelOrder m.order_id
      b1.AddOrder (m.ToOrderPointer entry.order_type)

/-- The `CreateLevelInfos` lambda of `OrderBook::GetOrderInfos`:
`std::accumulate` of the remaining quantities over a level's queue.  The
accumulator is `Quantity = std::uint32_t`, so every addition is carried
out modulo `2 ^ 32`. -/
def CreateLevelInfos (price : Price) (orders : List Order) : LevelInfo :=
  LevelInfo.mk price
    (orders.foldl
      (fun running_sum o => (running_sum + o.remaining_quantity) % 2 ^ 32) 0)

/-- `OrderBook::GetOrderInfos` (lines 302-317). -/
def OrderBook.GetOrderInfos (b : OrderBook) : OrderBookLevelInfos :=
  OrderBookLevelInfos.mk
    (b.bids.map (fun l => CreateLevelInfos l.1 l.2))
    (b.asks.map (fun l => CreateLevelInfos l.1 l.2))

/-- The empty book (`OrderBook orderbook;`). -/
def OrderBook.empty : OrderBook :=
  { bids := [], asks := [], orders := [] }

/-! ## Book invariants

The C++ book maintains these between public calls: levels with empty
queues are erased immediately, the two maps are sorted by their
comparators, every queued order is at the level of its own price on its
own side, order ids are unique, and the registry and the level index
describe the same set of resting orders. -/

/-- The ids of all orders queued in a side's levels, in book order. -/
def sideIds (levels : List Level) : List OrderId :=
  (levels.map (fun l => l.2.map (fun o => o.order_id))).flatten

/-- All order ids resting in the book (bid side then ask side). -/
def OrderBook.allIds (b : OrderBook) : List OrderId :=
  sideIds b.bids ++ sideIds b.asks

/-- The ids registered in `orders_`. -/
def regIds (b : OrderBook) : List OrderId :=
  b.orders.map (fun e => e.1)

/-- The side's level map, as `CancelOrder` selects it from a side. -/
def OrderBook.sideLevels (b : OrderBook) (s : Side) : List Level :=
  match s with
  | Side.Buy => b.bids
  | Side.Sell => b.asks

/-- No level has an empty queue. -/
def levelsNonempty (levels : List Level) : Prop :=
  ∀ l ∈ levels, l.2 ≠ []

/-- The level keys are strictly ordered by the map's comparator. -/
def levelsOrdered (cmp : Price → Price → Bool) (levels : List Level) : Prop :=
  List.Pairwise (fun x y => cmp x.1 y.1 = true) levels

/-- Every order rests at the level of its own price, on its own side. -/
def levelsCoherent (s : Side) (levels : List Level) : Prop :=
  ∀ l ∈ levels, ∀ o ∈ l.2, o.price = l.1 ∧ o.side = s

/-- Every registry entry points at a queued order with the entry's
recorded id, side, price and type, resting at the recorded level. -/
def entryMatches (b : OrderBook) : Prop :=
  ∀ p ∈ b.orders, ∃ l ∈ b.sideLevels p.2.side, l.1 = p.2.price ∧
    ∃ o ∈ l.2, o.order_id = p.1 ∧ o.side = p.2.side ∧
      o.price = p.2.price ∧ o.order_type = p.2.order_type

/-- Every queued order is registered. -/
def queuedRegistered (b : OrderBook) : Prop :=
  ∀ id ∈ b.allIds, id ∈ regIds b

/-- Every order's remaining quantity is at most its initial quantity. -/
def quantitiesOK (b : OrderBook) : Prop :=
  ∀ l ∈ b.bids ++ b.asks, ∀ o ∈ l.2,
    o.remaining_quantity ≤ o.initial_quantity

/-- The well-formedness invariant of the book. -/
def OrderBook.WF (b : OrderBook) : Prop :=
  levelsNonempty b.bids ∧ levelsNonempty b.asks ∧
  levelsOrdered (fun x y => x > y) b.bids ∧
  levelsOrdered (fun x y => x < y) b.asks ∧
  levelsCoherent Side.Buy b.bids ∧ levelsCoherent Side.Sell b.asks ∧
  b.allIds.Nodup ∧ (regIds b).Nodup ∧
  entryMatches b ∧ queuedRegistered b

instance (levels : List Level) : Decidable (levelsNonempty levels) := by
  unfold levelsNonempty
  exact inferInstance

instance (cmp : Price → Price → Bool) (levels : List Level) :
    Decidable (levelsOrdered cmp levels) := by
  unfold levelsOrdered
  exact inferInstance

instance (s : Side) (levels : List Level) :
    Decidable (levelsCoherent s levels) := by
  unfold levelsCoherent
  exact inferInstance

instance (b : OrderBook) : Decidable (entryMatches b) := by
  unfold entryMatches
  exact inferInstance

instance (b : OrderBook) : Decidable (queuedRegistered b) := by
  unfold queuedRegistered
  exact inferInstance

instance (b : OrderBook) : Decidable (quantitiesOK b) := by
  unfold quantitiesOK
  exact inferInstance

instance (b : OrderBook) : Decidable b.WF := by
  unfold OrderBook.WF
  exact inferInstance

/-- Best bid price, when the bid side is nonempty. -/
def OrderBook.bestBid? (b : OrderBook) : Option Price :=
  b.bids.head?.map (fun l => l.1)

/-- Best ask price, when the ask side is nonempty. -/
def OrderBook.bestAsk? (b : OrderBook) : Option Price :=
  b.asks.head?.map (fun l => l.1)

/-- One side is empty, or the best bid is strictly below the best ask. -/
def OrderBook.uncrossed (b : OrderBook) : Prop :=
  b.bids = [] ∨ b.asks = [] ∨
    ∃ bb ba, b.bestBid? = some bb ∧ b.bestAsk? = some ba ∧ bb < ba

/-- The books reachable through the public interface from a fresh book. -/
inductive OrderBook.Reachable : OrderBook → Prop where
  | empty : OrderBook.Reachable OrderBook.empty
  | add (b : OrderBook) (o : Order) : OrderBook.Reachable b →
      OrderBook.Reachable (b.AddOrder o).2
  | cancel (b : OrderBook) (id : OrderId) : OrderBook.Reachable b →
      OrderBook.Reachable (b.CancelOrder id)
  | modify (b : OrderBook) (m : OrderModify) : OrderBook.Reachable b →
      OrderBook.Reachable (b.MatchOrder m).2

/-! ## Basic lemmas -/

lemma containsId_iff (b : OrderBook) (id : OrderId) :
    b.containsId id = true ↔ id ∈ regIds b := by
  simp [OrderBook.containsId, regIds]

/-- The matching loop returns trades exactly when it changes the book:
every loop iteration records a trade, so an empty trade list means the
loop broke immediately and the book is untouched. -/
lemma MatchOrders_of_nil_trades (b : OrderBook)
    (h : (b.MatchOrders).1 = []) : (b.MatchOrders).2 = b := by
  obtain ⟨bids, asks, orders⟩ := b
  rcases bids with _ | ⟨⟨bp, bq⟩, restB⟩
  · simp [OrderBook.MatchOrders]
  rcases asks with _ | ⟨⟨ap, aq⟩, restA⟩
  · simp [OrderBook.MatchOrders]
  rcases bq with _ | ⟨b1, bt⟩
  · simp [OrderBook.MatchOrders]
  rcases aq with _ | ⟨a1, at1⟩
  · simp [OrderBook.MatchOrders]
  by_cases hlt : bp < ap
  · rw [OrderBook.MatchOrders]
    simp [hlt]
  · rw [OrderBook.MatchOrders] at h
    simp [hlt] at h

/-- The book reached after one iteration of the matching loop's body, when
the best levels are `(bp, bid :: bt)` and `(ap, ask :: at1)`: both front
orders are filled by the minimum of their remaining quantities, filled
orders are popped and deregistered, and emptied levels are erased. -/
def stepBook (b : OrderBook) (bp : Price) (bid : Order) (bt : List Order)
    (restB : List Level) (ap : Price) (ask : Order) (at1 : List Order)
    (restA : List Level) : OrderBook :=
  let quantity := min bid.remaining_quantity ask.remaining_quantity
  let bid_after := { bid with
    remaining_quantity := bid.remaining_quantity - quantity }
  let ask_after := { ask with
    remaining_quantity := ask.remaining_quantity - quantity }
  let orders1 := if bid_after.remaining_quantity = 0 then
    eraseEntry b.orders bid.order_id else b.orders
  let orders2 := if ask_after.remaining_quantity = 0 then
    eraseEntry orders1 ask.order_id else orders1
  let bid_queue := if bid_after.remaining_quantity = 0 then bt
    else bid_after :: bt
  let ask_queue := if ask_after.remaining_quantity = 0 then at1
    else ask_after :: at1
  { bids := if bid_queue.isEmpty then restB else (bp, bid_queue) :: restB,
    asks := if ask_queue.isEmpty then restA else (ap, ask_queue) :: restA,
    orders := orders2 }

/-- One-step unfolding of the matching loop in the crossing case. -/
lemma MatchOrders_step_eq (b : OrderBook) (bp : Price) (bid : Order)
    (bt : List Order) (restB : List Level) (ap : Price) (ask : Order)
    (at1 : List Order) (restA : List Level)
    (hb : b.bids = (bp, bid :: bt) :: restB)
    (ha : b.asks = (ap, ask :: at1) :: restA)
    (hlt : ¬ bp < ap) :
    b.MatchOrders =
      (Trade.mk
        (TradeInfo.mk bid.order_id bid.price
          (min bid.remaining_quantity ask.remaining_quantity))
        (TradeInfo.mk ask.order_id ask.price
          (min bid.remaining_quantity ask.remaining_quantity)) ::
        ((stepBook b bp bid bt restB ap ask at1 restA).MatchOrders).1,
       ((stepBook b bp bid bt restB ap ask at1 restA).MatchOrders).2) := by
  obtain ⟨bids, asks, orders⟩ := b
  simp only at hb ha
  subst hb ha
  rw [OrderBook.MatchOrders]
  simp [hlt, stepBook]

/-- The matching loop returns immediately when no cons/cons match on the
two sides' best levels is possible. -/
lemma MatchOrders_terminal_no_match (b : OrderBook)
    (h : ∀ (bp : Price) (bid : Order) (bt : List Order) (restB : List Level)
      (ap : Price) (ask : Order) (at1 : List Order) (restA : List Level),
      b.bids = (bp, bid :: bt) :: restB →
      b.asks = (ap, ask :: at1) :: restA → False) :
    b.MatchOrders = ([], b) := by
  obtain ⟨bids, asks, orders⟩ := b
  rcases bids with _ | ⟨⟨bp, bq⟩, restB⟩
  · simp [OrderBook.MatchOrders]
  rcases bq with _ | ⟨b1, bt⟩
  · simp [OrderBook.MatchOrders]
  rcases asks with _ | ⟨⟨ap, aq⟩, restA⟩
  · simp [OrderBook.MatchOrders]
  rcases aq with _ | ⟨a1, at1⟩
  · simp [OrderBook.MatchOrders]
  exact absurd (h bp b1 bt restB ap a1 at1 restA rfl rfl) (by simp)

/-- The matching loop returns immediately when the best prices do not
cross. -/
lemma MatchOrders_terminal_lt (b : OrderBook) (bp : Price) (bid : Order)
    (bt : List Order) (restB : List Level) (ap : Price) (ask : Order)
    (at1 : List Order) (restA : List Level)
    (hb : b.bids = (bp, bid :: bt) :: restB)
    (ha : b.asks = (ap, ask :: at1) :: restA)
    (hlt : bp < ap) :
    b.MatchOrders = ([], b) := by
  obtain ⟨bids, asks, orders⟩ := b
  simp only at hb ha
  subst hb ha
  rw [OrderBook.MatchOrders]
  simp [hlt]

/-- The book produced by `AddOrder` before the matching loop runs:
insertion at the order's price level plus registration. -/
def OrderBook.insertOrder (b : OrderBook) (o : Order) : OrderBook :=
  let b1 := match o.side with
    | Side.Buy => { b with bids := insertBid b.bids o }
    | Side.Sell => { b with asks := insertAsk b.asks o }
  { b1 with orders := (o.order_id,
      OrderEntry.mk o.side o.price o.order_type) :: b1.orders }

lemma insertOrder_orders (b : OrderBook) (o : Order) :
    (b.insertOrder o).orders = (o.order_id,
      OrderEntry.mk o.side o.price o.order_type) :: b.orders := by
  cases ho : o.side <;> simp [OrderBook.insertOrder, ho]

lemma AddOrder_eq (b : OrderBook) (o : Order)
    (h1 : ¬ b.containsId o.order_id = true)
    (h2 : ¬ (o.order_type = OrderType.FillAndKill ∧
      b.CanMatch o.side o.price = false)) :
    b.AddOrder o = (b.insertOrder o).MatchOrders := by
  rw [OrderBook.AddOrder, if_neg h1, if_neg (by simpa using h2)]
  rfl

/-! ## Fill accounting

`queueRemaining`/`levelsRemaining` total the remaining quantity of the
orders with a given id (under id-uniqueness, of the single such order);
`sumBidFills`/`sumAskFills` total the quantities of the trade legs naming
that id.  The matching loop moves quantity from the former to the latter,
one trade at a time. -/

def queueRemaining (q : List Order) (id : OrderId) : Nat :=
  ((q.filter (fun o => o.order_id == id)).map
    (fun o => o.remaining_quantity)).sum

def levelsRemaining (levels : List Level) (id : OrderId) : Nat :=
  (levels.map (fun l => queueRemaining l.2 id)).sum

def sumBidFills (ts : Trades) (id : OrderId) : Nat :=
  ((ts.filter (fun t => t.bid_trade.order_id == id)).map
    (fun t => t.bid_trade.quantity)).sum

def sumAskFills (ts : Trades) (id : OrderId) : Nat :=
  ((ts.filter (fun t => t.ask_trade.order_id == id)).map
    (fun t => t.ask_trade.quantity)).sum

lemma queueRemaining_cons (o : Order) (q : List Order) (id : OrderId) :
    queueRemaining (o :: q) id =
      (if o.order_id = id then o.remaining_quantity else 0) +
        queueRemaining q id := by
  simp only [queueRemaining, List.filter_cons]
  split
  · next h =>
      simp only [beq_iff_eq] at h
      simp [h, Nat.add_comm]
  · next h =>
      simp only [beq_iff_eq] at h
      simp [h]

lemma levelsRemaining_cons (l : Level) (rest : List Level) (id : OrderId) :
    levelsRemaining (l :: rest) id =
      queueRemaining l.2 id + levelsRemaining rest id := by
  simp [levelsRemaining]

lemma levelsRemaining_cons_if (p : Price) (q : List Order)
    (rest : List Level) (id : OrderId) :
    levelsRemaining (if q.isEmpty then rest else (p, q) :: rest) id =
      queueRemaining q id + levelsRemaining rest id := by
  cases q <;> simp [levelsRemaining, queueRemaining]

lemma sumBidFills_cons (t : Trade) (ts : Trades) (id : OrderId) :
    sumBidFills (t :: ts) id =
      (if t.bid_trade.order_id = id then t.bid_trade.quantity else 0) +
        sumBidFills ts id := by
  simp only [sumBidFills, List.filter_cons]
  split
  · next h =>
      simp only [beq_iff_eq] at h
      simp [h, Nat.add_comm]
  · next h =>
      simp only [beq_iff_eq] at h
      simp [h]

lemma sumAskFills_cons (t : Trade) (ts : Trades) (id : OrderId) :
    sumAskFills (t :: ts) id =
      (if t.ask_trade.order_id = id then t.ask_trade.quantity else 0) +
        sumAskFills ts id := by
  simp only [sumAskFills, List.filter_cons]
  split
  · next h =>
      simp only [beq_iff_eq] at h
      simp [h, Nat.add_comm]
  · next h =>
      simp only [beq_iff_eq] at h
      simp [h]

/-- C7 — `AddOrder` returns no trades and leaves the book unchanged in
exactly two cases: a duplicate order id, or a FillAndKill order that
cannot match (`CanMatch` is false precisely when the opposing side is
empty, or a buy is priced below the best ask, or a sell above the best
bid). -/
theorem addOrder_noop_iff (b : OrderBook) (o : Order) :
    b.AddOrder o = ([], b) ↔
      (b.containsId o.order_id = true ∨
        (o.order_type = OrderType.FillAndKill ∧
          b.CanMatch o.side o.price = false)) := by
  constructor
  · intro h
    by_cases h1 : b.containsId o.order_id = true
    · exact Or.inl h1
    by_cases h2 : o.order_type = OrderType.FillAndKill ∧
        b.CanMatch o.side o.price = false
    · exact Or.inr h2
    exfalso
    rw [AddOrder_eq b o h1 h2] at h
    have htr : ((b.insertOrder o).MatchOrders).1 = [] := by
      rw [h]
    have hbk := MatchOrders_of_nil_trades _ htr
    rw [h] at hbk
    have : b.orders = (o.order_id,
        OrderEntry.mk o.side o.price o.order_type) :: b.orders := by
      have h5 := congrArg OrderBook.orders hbk
      rw [insertOrder_orders] at h5
      exact h5
    exact absurd (congrArg List.length this) (by simp)
  · intro h
    rw [OrderBook.AddOrder]
    rcases h with h | ⟨h2, h3⟩
    · rw [if_pos h]
    · by_cases h1 : b.containsId o.order_id = true
      · rw [if_pos h1]
      · rw [if_neg h1, if_pos (by simp [h2, h3])]

/-- The matching loop moves remaining quantity into trade-leg quantity,
id by id: for every order id, the remaining quantity resting on a side
before the loop equals what still rests there after the loop plus the
total quantity of that side's trade legs naming the id. -/
lemma MatchOrders_remaining (b : OrderBook) (id : OrderId) :
    levelsRemaining b.bids id =
      levelsRemaining ((b.MatchOrders).2).bids id +
        sumBidFills ((b.MatchOrders).1) id ∧
    levelsRemaining b.asks id =
      levelsRemaining ((b.MatchOrders).2).asks id +
        sumAskFills ((b.MatchOrders).1) id := by
  induction b using OrderBook.MatchOrders.induct with
  | case1 x bp bid bt restB ap ask at1 restA hb ha hlt =>
    rw [MatchOrders_terminal_lt x bp bid bt restB ap ask at1 restA hb ha hlt]
    simp [sumBidFills, sumAskFills]
  | case3 x h =>
    rw [MatchOrders_terminal_no_match x h]
    simp [sumBidFills, sumAskFills]
  | case2 x bp bid bt restB ap ask at1 restA hb ha hlt quantity bid_after
      ask_after orders1 orders2 bid_queue ask_queue new_bids new_asks IH =>
    rw [MatchOrders_step_eq x bp bid bt restB ap ask at1 restA hb ha hlt]
    have hstep : stepBook x bp bid bt restB ap ask at1 restA =
        OrderBook.mk new_bids new_asks orders2 := rfl
    rw [hstep]
    obtain ⟨ih1, ih2⟩ := IH
    have hnb : levelsRemaining new_bids id =
        queueRemaining bid_queue id + levelsRemaining restB id := by
      rw [show new_bids = if bid_queue.isEmpty then restB
        else (bp, bid_queue) :: restB from rfl]
      exact levelsRemaining_cons_if bp bid_queue restB id
    have hna : levelsRemaining new_asks id =
        queueRemaining ask_queue id + levelsRemaining restA id := by
      rw [show new_asks = if ask_queue.isEmpty then restA
        else (ap, ask_queue) :: restA from rfl]
      exact levelsRemaining_cons_if ap ask_queue restA id
    have hq1 : quantity ≤ bid.remaining_quantity := min_le_left _ _
    have hq2 : quantity ≤ ask.remaining_quantity := min_le_right _ _
    have hbq : queueRemaining bid_queue id =
        (if bid.order_id = id then bid.remaining_quantity - quantity
          else 0) + queueRemaining bt id := by
      by_cases hf : bid.remaining_quantity - quantity = 0
      · rw [show bid_queue = bt from by
          rw [show bid_queue = if bid.remaining_quantity - quantity = 0
            then bt else bid_after :: bt from rfl, if_pos hf]]
        rw [hf]
        simp
      · rw [show bid_queue = bid_after :: bt from by
          rw [show bid_queue = if bid.remaining_quantity - quantity = 0
            then bt else bid_after :: bt from rfl, if_neg hf]]
        rw [queueRemaining_cons]
    have haq : queueRemaining ask_queue id =
        (if ask.order_id = id then ask.remaining_quantity - quantity
          else 0) + queueRemaining at1 id := by
      by_cases hf : ask.remaining_quantity - quantity = 0
      · rw [show ask_queue = at1 from by
          rw [show ask_queue = if ask.remaining_quantity - quantity = 0
            then at1 else ask_after :: at1 from rfl, if_pos hf]]
        rw [hf]
        simp
      · rw [show ask_queue = ask_after :: at1 from by
          rw [show ask_queue = if ask.remaining_quantity - quantity = 0
            then at1 else ask_after :: at1 from rfl, if_neg hf]]
        rw [queueRemaining_cons]
    rw [hb, ha]
    simp only at ih1 ih2
    rw [hnb, hbq] at ih1
    rw [hna, haq] at ih2
    constructor
    · rw [levelsRemaining_cons, queueRemaining_cons]
      simp only [sumBidFills_cons]
      by_cases hid : bid.order_id = id <;> simp_all
      all_goals omega
    · rw [levelsRemaining_cons, queueRemaining_cons]
      simp only [sumAskFills_cons]
      by_cases hid : ask.order_id = id <;> simp_all
      all_goals omega

/-- Both legs of every trade carry the same matched quantity. -/
lemma MatchOrders_trades_qty (b : OrderBook) :
    ∀ t ∈ (b.MatchOrders).1,
      t.bid_trade.quantity = t.ask_trade.quantity := by
  induction b using OrderBook.MatchOrders.induct with
  | case1 x bp bid bt restB ap ask at1 restA hb ha hlt =>
    rw [MatchOrders_terminal_lt x bp bid bt restB ap ask at1 restA hb ha hlt]
    simp
  | case3 x h =>
    rw [MatchOrders_terminal_no_match x h]
    simp
  | case2 x bp bid bt restB ap ask at1 restA hb ha hlt quantity bid_after
      ask_after orders1 orders2 bid_queue ask_queue new_bids new_asks IH =>
    rw [MatchOrders_step_eq x bp bid bt restB ap ask at1 restA hb ha hlt]
    have hstep : stepBook x bp bid bt restB ap ask at1 restA =
        OrderBook.mk new_bids new_asks orders2 := rfl
    rw [hstep]
    intro t ht
    rcases List.mem_cons.mp ht with h | h
    · rw [h]
    · exact IH t h

/-- C2 — one iteration of the matching loop: when the best bid and ask
levels cross, the front orders of the two levels trade exactly
`min(bid.remaining, ask.remaining)`; the appended trade carries the bid
order's id and the bid order's own price on the bid leg, the ask order's
id and the ask order's own price on the ask leg (no uniform clearing
price), and that minimum as the matched quantity on both legs; and for
each id the remaining quantity resting on a side drops by exactly the
total quantity of that side's trade legs naming it. -/
theorem MatchOrders_step_spec (b : OrderBook) (bp ap : Price)
    (bid ask : Order) (bt at1 : List Order) (restB restA : List Level)
    (hb : b.bids = (bp, bid :: bt) :: restB)
    (ha : b.asks = (ap, ask :: at1) :: restA)
    (hcross : ¬ bp < ap) :
    (∃ rest, (b.MatchOrders).1 =
      Trade.mk
        (TradeInfo.mk bid.order_id bid.price
          (min bid.remaining_quantity ask.remaining_quantity))
        (TradeInfo.mk ask.order_id ask.price
          (min bid.remaining_quantity ask.remaining_quantity)) :: rest) ∧
    (∀ t ∈ (b.MatchOrders).1,
      t.bid_trade.quantity = t.ask_trade.quantity) ∧
    levelsRemaining b.bids bid.order_id =
      levelsRemaining ((b.MatchOrders).2).bids bid.order_id +
        sumBidFills ((b.MatchOrders).1) bid.order_id ∧
    levelsRemaining b.asks ask.order_id =
      levelsRemaining ((b.MatchOrders).2).asks ask.order_id +
        sumAskFills ((b.MatchOrders).1) ask.order_id := by
  refine ⟨⟨((stepBook b bp bid bt restB ap ask at1 restA).MatchOrders).1, ?_⟩,
    MatchOrders_trades_qty b, (MatchOrders_remaining b bid.order_id).1,
    (MatchOrders_remaining b ask.order_id).2⟩
  rw [MatchOrders_step_eq b bp bid bt restB ap ask at1 restA hb ha hcross]

/-- A crossed two-order book used to witness the matching-step theorem. -/
def wBid : Order :=
  ⟨OrderType.GoodTillCancel, 11, Side.Buy, 101, 7, 7⟩

def wAsk : Order :=
  ⟨OrderType.GoodTillCancel, 12, Side.Sell, 100, 4, 4⟩

def wBook : OrderBook :=
  ⟨[(101, [wBid])], [(100, [wAsk])],
   [(11, ⟨Side.Buy, 101, OrderType.GoodTillCancel⟩),
    (12, ⟨Side.Sell, 100, OrderType.GoodTillCancel⟩)]⟩

theorem MatchOrders_step_spec_witness :
    wBook.bids = (101, wBid :: []) :: [] ∧
    wBook.asks = (100, wAsk :: []) :: [] ∧
    ¬ (101 : Price) < 100 ∧
    ((∃ rest, (wBook.MatchOrders).1 =
      Trade.mk
        (TradeInfo.mk wBid.order_id wBid.price
          (min wBid.remaining_quantity wAsk.remaining_quantity))
        (TradeInfo.mk wAsk.order_id wAsk.price
          (min wBid.remaining_quantity wAsk.remaining_quantity)) :: rest) ∧
    (∀ t ∈ (wBook.MatchOrders).1,
      t.bid_trade.quantity = t.ask_trade.quantity) ∧
    levelsRemaining wBook.bids wBid.order_id =
      levelsRemaining ((wBook.MatchOrders).2).bids wBid.order_id +
        sumBidFills ((wBook.MatchOrders).1) wBid.order_id ∧
    levelsRemaining wBook.asks wAsk.order_id =
      levelsRemaining ((wBook.MatchOrders).2).asks wAsk.order_id +
        sumAskFills ((wBook.MatchOrders).1) wAsk.order_id) :=
  ⟨rfl, rfl, by decide,
    MatchOrders_step_spec wBook 101 100 wBid wAsk [] [] [] [] rfl rfl
      (by decide)⟩

/-! ## The FillAndKill resting scenario

`GoodTillCancel` sell id 1 at 100 for 10, then `FillAndKill` buy id 2 at
100 for 15: the buy fills 10 and is left with 5 remaining at the front of
the bid side.  The post-loop cleanup in `MatchOrders` (lines 228-242)
performs no state change — the `CancelOrder` calls are commented out (and
the bid-side branch tests `GoodTillCancel` rather than `FillAndKill`) —
so the unfilled FillAndKill order rests. -/

def gtcSell : Order :=
  ⟨OrderType.GoodTillCancel, 1, Side.Sell, 100, 10, 10⟩

def fakBuy : Order :=
  ⟨OrderType.FillAndKill, 2, Side.Buy, 100, 15, 15⟩

/-- The book after adding `gtcSell` to the empty book. -/
def bookA : OrderBook :=
  ⟨[], [(100, [gtcSell])], [(1, ⟨Side.Sell, 100, OrderType.GoodTillCancel⟩)]⟩

/-- `bookA` with `fakBuy` inserted, before the matching loop. -/
def bookM : OrderBook :=
  ⟨[(100, [fakBuy])], [(100, [gtcSell])],
   [(2, ⟨Side.Buy, 100, OrderType.FillAndKill⟩),
    (1, ⟨Side.Sell, 100, OrderType.GoodTillCancel⟩)]⟩

/-- The book after the matching loop: order 2, a FillAndKill order with 5
still remaining, rests on the bid side and stays registered. -/
def bookB : OrderBook :=
  ⟨[(100, [⟨OrderType.FillAndKill, 2, Side.Buy, 100, 15, 5⟩])], [],
   [(2, ⟨Side.Buy, 100, OrderType.FillAndKill⟩)]⟩

lemma addOrder_gtcSell : OrderBook.empty.AddOrder gtcSell = ([], bookA) := by
  rw [AddOrder_eq _ _ (by decide) (by decide)]
  rw [show OrderBook.empty.insertOrder gtcSell = bookA from by decide]
  exact MatchOrders_terminal_no_match bookA
    (by intro bp bid bt rb ap ask at1 ra hb ha; simp [bookA] at hb)

lemma addOrder_fakBuy :
    bookA.AddOrder fakBuy =
      ([Trade.mk (TradeInfo.mk 2 100 10) (TradeInfo.mk 1 100 10)],
        bookB) := by
  rw [AddOrder_eq _ _ (by decide) (by decide)]
  rw [show bookA.insertOrder fakBuy = bookM from by decide]
  rw [MatchOrders_step_eq bookM 100 fakBuy [] [] 100 gtcSell [] [] rfl rfl
    (by decide)]
  rw [show stepBook bookM 100 fakBuy [] [] 100 gtcSell [] [] = bookB from
    by decide]
  rw [MatchOrders_terminal_no_match bookB
    (by intro bp bid bt rb ap ask at1 ra hb ha; simp [bookB] at ha)]
  decide

/-- C1 — refuted by the code: after `AddOrder` returns, the FillAndKill
order id 2, filled only 10 of 15, is still registered and still rests at
the front of the bid side; the post-loop cleanup the claim describes is
commented out in the source, so an unfilled FillAndKill order does rest. -/
theorem fillAndKill_rests_after_AddOrder :
    fakBuy.order_type = OrderType.FillAndKill ∧
    ((OrderBook.empty.AddOrder gtcSell).2.AddOrder fakBuy).2.containsId 2 =
      true ∧
    ((OrderBook.empty.AddOrder gtcSell).2.AddOrder fakBuy).2.bids =
      [(100, [⟨OrderType.FillAndKill, 2, Side.Buy, 100, 15, 5⟩])] := by
  have h1 : (OrderBook.empty.AddOrder gtcSell).2 = bookA := by
    rw [addOrder_gtcSell]
  rw [h1, addOrder_fakBuy]
  exact ⟨rfl, by decide, by decide⟩

/-! ## Uniqueness of per-id remaining quantity -/

lemma queueRemaining_eq_zero (q : List Order) (id : OrderId)
    (h : ∀ o ∈ q, o.order_id ≠ id) : queueRemaining q id = 0 := by
  induction q with
  | nil => rfl
  | cons x xs ih =>
    rw [queueRemaining_cons, if_neg (h x (List.mem_cons_self x xs)),
      ih (fun o ho => h o (List.mem_cons_of_mem x ho))]

lemma queueRemaining_of_mem (q : List Order) (o : Order)
    (hnd : (q.map (fun o => o.order_id)).Nodup) (ho : o ∈ q) :
    queueRemaining q o.order_id = o.remaining_quantity := by
  induction q with
  | nil => cases ho
  | cons x xs ih =>
    rw [List.map_cons, List.nodup_cons] at hnd
    rw [queueRemaining_cons]
    rcases List.mem_cons.mp ho with h | h
    · subst h
      rw [if_pos rfl, queueRemaining_eq_zero xs o.order_id
        (fun o' ho' hcontra =>
          hnd.1 (hcontra ▸ List.mem_map_of_mem (fun o => o.order_id) ho'))]
      simp
    · have hne : x.order_id ≠ o.order_id := fun hcontra =>
        hnd.1 (hcontra ▸ List.mem_map_of_mem (fun o => o.order_id) h)
      rw [if_neg hne, ih hnd.2 h]
      simp

lemma mem_sideIds (levels : List Level) (l : Level) (o : Order)
    (hl : l ∈ levels) (ho : o ∈ l.2) : o.order_id ∈ sideIds levels := by
  simp only [sideIds, List.mem_flatten, List.mem_map]
  exact ⟨l.2.map (fun o => o.order_id), ⟨l, hl, rfl⟩,
    List.mem_map_of_mem (fun o => o.order_id) ho⟩

lemma levelsRemaining_eq_zero (levels : List Level) (id : OrderId)
    (h : id ∉ sideIds levels) : levelsRemaining levels id = 0 := by
  induction levels with
  | nil => rfl
  | cons lv rest ih =>
    have hsplit : sideIds (lv :: rest) =
        lv.2.map (fun o => o.order_id) ++ sideIds rest := by
      simp [sideIds]
    rw [hsplit, List.mem_append] at h
    push_neg at h
    rw [levelsRemaining_cons, ih h.2, queueRemaining_eq_zero lv.2 id
      (fun o ho hc => h.1 (hc ▸ List.mem_map_of_mem (fun o => o.order_id) ho))]

lemma levelsRemaining_of_mem (levels : List Level) (l : Level) (o : Order)
    (hnd : (sideIds levels).Nodup) (hl : l ∈ levels) (ho : o ∈ l.2) :
    levelsRemaining levels o.order_id = o.remaining_quantity := by
  induction levels with
  | nil => cases hl
  | cons lv rest ih =>
    have hsplit : sideIds (lv :: rest) =
        lv.2.map (fun o => o.order_id) ++ sideIds rest := by
      simp [sideIds]
    rw [hsplit] at hnd
    have hdisj := List.disjoint_of_nodup_append hnd
    rw [levelsRemaining_cons]
    rcases List.mem_cons.mp hl with h | h
    · subst h
      rw [queueRemaining_of_mem l.2 o hnd.of_append_left ho,
        levelsRemaining_eq_zero rest o.order_id (fun hc =>
          hdisj (List.mem_map_of_mem (fun o => o.order_id) ho) hc)]
      simp
    · have hzero : queueRemaining lv.2 o.order_id = 0 := by
        refine queueRemaining_eq_zero lv.2 o.order_id (fun o2 ho2 hc => ?_)
        exact hdisj (hc ▸ List.mem_map_of_mem (fun o => o.order_id) ho2)
          (mem_sideIds rest l o h ho)
      rw [hzero, ih hnd.of_append_right h]
      simp

/-- C8 — `Order::Fill` throws exactly when the requested quantity exceeds
the remaining quantity; the matching loop's requests, always the minimum
of the two front remaining quantities, always satisfy the guard (the
throw is unreachable from the loop); and the total quantity the loop
matches against any resting order never exceeds its initial quantity. -/
theorem Fill_spec (b : OrderBook) (hq : quantitiesOK b)
    (hnd : b.allIds.Nodup) :
    (∀ (o : Order) (q : Quantity),
      Order.Fill o q = none ↔ o.remaining_quantity < q) ∧
    (∀ o1 o2 : Order,
      Order.Fill o1 (min o1.remaining_quantity o2.remaining_quantity) =
        some { o1 with
          remaining_quantity :=
            o1.remaining_quantity -
              min o1.remaining_quantity o2.remaining_quantity }) ∧
    (∀ l ∈ b.bids, ∀ o ∈ l.2,
      sumBidFills ((b.MatchOrders).1) o.order_id ≤ o.initial_quantity) ∧
    (∀ l ∈ b.asks, ∀ o ∈ l.2,
      sumAskFills ((b.MatchOrders).1) o.order_id ≤ o.initial_quantity) := by
  have hbidsnd : (sideIds b.bids).Nodup := hnd.of_append_left
  have hasksnd : (sideIds b.asks).Nodup := hnd.of_append_right
  refine ⟨?_, ?_, ?_, ?_⟩
  · intro o q
    by_cases h : o.remaining_quantity < q
    · simp [Order.Fill, h]
    · simp [Order.Fill, h]
  · intro o1 o2
    rw [Order.Fill, if_neg (Nat.not_lt.mpr (min_le_left _ _))]
  · intro l hl o ho
    have hcons := (MatchOrders_remaining b o.order_id).1
    rw [levelsRemaining_of_mem b.bids l o hbidsnd hl ho] at hcons
    have hle : o.remaining_quantity ≤ o.initial_quantity :=
      hq l (List.mem_append_left _ hl) o ho
    rw [hcons] at hle
    exact le_trans (Nat.le_add_left _ _) hle
  · intro l hl o ho
    have hcons := (MatchOrders_remaining b o.order_id).2
    rw [levelsRemaining_of_mem b.asks l o hasksnd hl ho] at hcons
    have hle : o.remaining_quantity ≤ o.initial_quantity :=
      hq l (List.mem_append_right _ hl) o ho
    rw [hcons] at hle
    exact le_trans (Nat.le_add_left _ _) hle

theorem Fill_spec_witness :
    quantitiesOK wBook ∧ wBook.allIds.Nodup ∧
    ((∀ (o : Order) (q : Quantity),
      Order.Fill o q = none ↔ o.remaining_quantity < q) ∧
    (∀ o1 o2 : Order,
      Order.Fill o1 (min o1.remaining_quantity o2.remaining_quantity) =
        some { o1 with
          remaining_quantity :=
            o1.remaining_quantity -
              min o1.remaining_quantity o2.remaining_quantity }) ∧
    (∀ l ∈ wBook.bids, ∀ o ∈ l.2,
      sumBidFills ((wBook.MatchOrders).1) o.order_id ≤
        o.initial_quantity) ∧
    (∀ l ∈ wBook.asks, ∀ o ∈ l.2,
      sumAskFills ((wBook.MatchOrders).1) o.order_id ≤
        o.initial_quantity)) :=
  ⟨by decide, by decide, Fill_spec wBook (by decide) (by decide)⟩

/-! ## Cancellation lemmas -/

lemma containsId_lookupEntry (b : OrderBook) (id : OrderId)
    (h : b.containsId id = true) :
    ∃ e, lookupEntry b.orders id = some e ∧ (id, e) ∈ b.orders := by
  rw [OrderBook.containsId, List.any_eq_true] at h
  obtain ⟨x, hx, hpx⟩ := h
  have hsome : (b.orders.find? (fun e => e.1 == id)).isSome = true :=
    List.find?_isSome.mpr ⟨x, hx, hpx⟩
  obtain ⟨y, hy⟩ := Option.isSome_iff_exists.mp hsome
  refine ⟨y.2, by rw [lookupEntry, hy]; rfl, ?_⟩
  have hmem := List.mem_of_find?_eq_some hy
  have hpy := List.find?_some hy
  rw [beq_iff_eq] at hpy
  have hyy : y = (id, y.2) := Prod.ext hpy rfl
  rw [← hyy]
  exact hmem

lemma regIds_length_eraseEntry (orders : List (OrderId × OrderEntry))
    (id : OrderId) (e : OrderEntry) (hmem : (id, e) ∈ orders) :
    (eraseEntry orders id).length + 1 = orders.length := by
  rw [eraseEntry, List.length_eraseP_of_mem hmem (by simp)]
  have : 0 < orders.length := List.length_pos.mpr (by
    intro hnil
    rw [hnil] at hmem
    cases hmem)
  omega

lemma not_mem_regIds_eraseEntry (orders : List (OrderId × OrderEntry))
    (id : OrderId) (e : OrderEntry) (hnd : (orders.map (fun x => x.1)).Nodup)
    (hmem : (id, e) ∈ orders) :
    id ∉ (eraseEntry orders id).map (fun x => x.1) := by
  obtain ⟨a, l1, l2, hl1, hpa, heq, herase⟩ :=
    @List.exists_of_eraseP _ (fun x => x.1 == id) orders (id, e) hmem
      (by simp)
  rw [eraseEntry, herase]
  rw [heq, List.map_append, List.map_cons] at hnd
  have ha : a.1 = id := by simpa using hpa
  intro hcontra
  rw [List.map_append, List.mem_append] at hcontra
  rcases hcontra with h | h
  · obtain ⟨x, hx, hx1⟩ := List.mem_map.mp h
    exact hl1 x hx (by simp [hx1])
  · have : a.1 ∈ l2.map (fun x => x.1) := ha ▸ h
    have hmid := (List.nodup_append.mp hnd).2.1
    rw [List.nodup_cons] at hmid
    exact hmid.1 this

lemma mem_regIds_eraseEntry (orders : List (OrderId × OrderEntry))
    (id id' : OrderId)
    (hmem : id' ∈ (eraseEntry orders id).map (fun x => x.1)) :
    id' ∈ orders.map (fun x => x.1) := by
  obtain ⟨x, hx, hx1⟩ := List.mem_map.mp hmem
  exact List.mem_map.mpr ⟨x, (List.eraseP_sublist orders).mem hx, hx1⟩

lemma keys_nodup_of_ordered (cmp : Price → Price → Bool)
    (levels : List Level) (hirr : ∀ x, cmp x x = false)
    (h : levelsOrdered cmp levels) :
    (levels.map (fun l => l.1)).Nodup := by
  rw [levelsOrdered] at h
  have h2 : List.Pairwise (fun x y : Price => x ≠ y)
      (levels.map (fun l => l.1)) := by
    refine List.Pairwise.map _ ?_ h
    intro a b hab hcontra
    rw [hcontra, hirr] at hab
    cases hab
  exact h2

lemma not_mem_queueIds_eraseP (q : List Order) (id : OrderId)
    (hnd : (q.map (fun o => o.order_id)).Nodup) :
    id ∉ ((q.eraseP (fun o => o.order_id == id)).map
      (fun o => o.order_id)) := by
  induction q with
  | nil => simp
  | cons x xs ih =>
    rw [List.map_cons, List.nodup_cons] at hnd
    by_cases hx : x.order_id = id
    · subst hx
      simp only [List.eraseP_cons, beq_self_eq_true, cond_true]
      exact hnd.1
    · have hcond : (x.order_id == id) = false := by simp [hx]
      simp only [List.eraseP_cons, hcond, cond_false, List.map_cons]
      intro hcontra
      rcases List.mem_cons.mp hcontra with h | h
      · exact hx h.symm
      · exact ih hnd.2 h

lemma sideIds_cons (l : Level) (rest : List Level) :
    sideIds (l :: rest) =
      l.2.map (fun o => o.order_id) ++ sideIds rest := by
  simp [sideIds]

lemma levelsNonempty_removeFromLevels (levels : List Level) (price : Price)
    (id : OrderId) (h : levelsNonempty levels) :
    levelsNonempty (removeFromLevels levels price id) := by
  induction levels with
  | nil => exact h
  | cons lv rest ih =>
    rw [removeFromLevels]
    obtain ⟨p, q⟩ := lv
    by_cases hp : p = price
    · rw [if_pos hp]
      by_cases he : (q.eraseP (fun o => o.order_id == id)).isEmpty
      · rw [if_pos he]
        exact fun l hl => h l (List.mem_cons_of_mem _ hl)
      · rw [if_neg he]
        intro l hl
        rcases List.mem_cons.mp hl with h1 | h1
        · rw [h1]
          simpa [List.isEmpty_iff] using he
        · exact h l (List.mem_cons_of_mem _ h1)
    · rw [if_neg hp]
      intro l hl
      rcases List.mem_cons.mp hl with h1 | h1
      · rw [h1]
        exact h (p, q) (List.mem_cons_self _ _)
      · exact ih (fun l2 hl2 => h l2 (List.mem_cons_of_mem _ hl2)) l h1

lemma sideIds_removeFromLevels_sublist (levels : List Level) (price : Price)
    (id : OrderId) :
    (sideIds (removeFromLevels levels price id)).Sublist (sideIds levels) := by
  induction levels with
  | nil => simp [removeFromLevels]
  | cons lv rest ih =>
    rw [removeFromLevels]
    obtain ⟨p, q⟩ := lv
    by_cases hp : p = price
    · rw [if_pos hp]
      by_cases he : (q.eraseP (fun o => o.order_id == id)).isEmpty
      · rw [if_pos he, sideIds_cons]
        exact (List.sublist_append_right _ _)
      · rw [if_neg he, sideIds_cons, sideIds_cons]
        exact List.Sublist.append
          ((List.eraseP_sublist q).map _) (List.Sublist.refl _)
    · rw [if_neg hp, sideIds_cons, sideIds_cons]
      exact List.Sublist.append (List.Sublist.refl _) ih

lemma keys_removeFromLevels_sublist (levels : List Level) (price : Price)
    (id : OrderId) :
    ((removeFromLevels levels price id).map (fun l => l.1)).Sublist
      (levels.map (fun l => l.1)) := by
  induction levels with
  | nil => simp [removeFromLevels]
  | cons lv rest ih =>
    rw [removeFromLevels]
    obtain ⟨p, q⟩ := lv
    by_cases hp : p = price
    · rw [if_pos hp]
      by_cases he : (q.eraseP (fun o => o.order_id == id)).isEmpty
      · rw [if_pos he, List.map_cons]
        exact (List.Sublist.refl _).cons _
      · rw [if_neg he, List.map_cons, List.map_cons]
    · rw [if_neg hp, List.map_cons, List.map_cons]
      exact ih.cons₂ _

lemma not_mem_sideIds_removeFromLevels (levels : List Level) (price : Price)
    (id : OrderId) (q0 : List Order) (o : Order)
    (hnd : (sideIds levels).Nodup)
    (hkeys : (levels.map (fun l => l.1)).Nodup)
    (hl : (price, q0) ∈ levels) (ho : o ∈ q0) (hid : o.order_id = id) :
    id ∉ sideIds (removeFromLevels levels price id) := by
  induction levels with
  | nil => cases hl
  | cons lv rest ih =>
    obtain ⟨p, q⟩ := lv
    rw [sideIds_cons] at hnd
    have hdisj := List.disjoint_of_nodup_append hnd
    rw [List.map_cons, List.nodup_cons] at hkeys
    rw [removeFromLevels]
    by_cases hp : p = price
    · rw [if_pos hp]
      have hq : q = q0 := by
        rcases List.mem_cons.mp hl with h1 | h1
        · exact (Prod.ext_iff.mp h1).2.symm
        · exact absurd (hp ▸ List.mem_map_of_mem (fun l => l.1) h1) hkeys.1
      subst hq
      have hidq : id ∈ q.map (fun o => o.order_id) :=
        hid ▸ List.mem_map_of_mem _ ho
      by_cases he : (q.eraseP (fun o => o.order_id == id)).isEmpty
      · rw [if_pos he]
        exact fun hc => hdisj hidq hc
      · rw [if_neg he, sideIds_cons]
        intro hc
        rcases List.mem_append.mp hc with h1 | h1
        · exact not_mem_queueIds_eraseP q id hnd.of_append_left h1
        · exact hdisj hidq h1
    · rw [if_neg hp, sideIds_cons]
      have hrest : (price, q0) ∈ rest := by
        rcases List.mem_cons.mp hl with h1 | h1
        · exact absurd ((Prod.ext_iff.mp h1).1.symm) hp
        · exact h1
      intro hc
      rcases List.mem_append.mp hc with h1 | h1
      · exact hdisj h1 (hid ▸ mem_sideIds rest (price, q0) o hrest ho)
      · exact ih hnd.of_append_right hkeys.2 hrest h1

lemma removeFromLevels_mem_of_ne (levels : List Level) (price : Price)
    (id : OrderId) (l : Level) (hl : l ∈ levels) (hne : l.1 ≠ price) :
    l ∈ removeFromLevels levels price id := by
  induction levels with
  | nil => cases hl
  | cons lv rest ih =>
    obtain ⟨p, q⟩ := lv
    rw [removeFromLevels]
    by_cases hp : p = price
    · rw [if_pos hp]
      have hrest : l ∈ rest := by
        rcases List.mem_cons.mp hl with h1 | h1
        · exact absurd (h1 ▸ hp) hne
        · exact h1
      by_cases he : (q.eraseP (fun o => o.order_id == id)).isEmpty
      · rw [if_pos he]
        exact hrest
      · rw [if_neg he]
        exact List.mem_cons_of_mem _ hrest
    · rw [if_neg hp]
      rcases List.mem_cons.mp hl with h1 | h1
      · rw [h1]
        exact List.mem_cons_self _ _
      · exact List.mem_cons_of_mem _ (ih h1)

lemma removeFromLevels_same_level (levels : List Level) (price : Price)
    (id : OrderId) (q0 : List Order)
    (hkeys : (levels.map (fun l => l.1)).Nodup)
    (hl : (price, q0) ∈ levels) (o2 : Order) (ho2 : o2 ∈ q0)
    (hne : o2.order_id ≠ id) :
    ∃ q', (price, q') ∈ removeFromLevels levels price id ∧ o2 ∈ q' := by
  induction levels with
  | nil => cases hl
  | cons lv rest ih =>
    obtain ⟨p, q⟩ := lv
    rw [List.map_cons, List.nodup_cons] at hkeys
    rw [removeFromLevels]
    by_cases hp : p = price
    · rw [if_pos hp]
      have hq : q = q0 := by
        rcases List.mem_cons.mp hl with h1 | h1
        · exact (Prod.ext_iff.mp h1).2.symm
        · exact absurd (hp ▸ List.mem_map_of_mem (fun l => l.1) h1) hkeys.1
      subst hq
      have ho2e : o2 ∈ q.eraseP (fun o => o.order_id == id) :=
        (List.mem_eraseP_of_neg (by simp [hne])).mpr ho2
      have hne2 : ¬(q.eraseP (fun o => o.order_id == id)).isEmpty = true := by
        rw [List.isEmpty_iff]
        intro hc
        rw [hc] at ho2e
        cases ho2e
      rw [if_neg hne2]
      exact ⟨q.eraseP (fun o => o.order_id == id),
        hp ▸ List.mem_cons_self _ _, ho2e⟩
    · rw [if_neg hp]
      have hrest : (price, q0) ∈ rest := by
        rcases List.mem_cons.mp hl with h1 | h1
        · exact absurd ((Prod.ext_iff.mp h1).1.symm) hp
        · exact h1
      obtain ⟨q', hq', ho'⟩ := ih hkeys.2 hrest
      exact ⟨q', List.mem_cons_of_mem _ hq', ho'⟩

lemma levelsCoherent_removeFromLevels (s : Side) (levels : List Level)
    (price : Price) (id : OrderId) (h : levelsCoherent s levels) :
    levelsCoherent s (removeFromLevels levels price id) := by
  induction levels with
  | nil => exact h
  | cons lv rest ih =>
    obtain ⟨p, q⟩ := lv
    rw [removeFromLevels]
    have hrest : levelsCoherent s rest :=
      fun l hl => h l (List.mem_cons_of_mem _ hl)
    by_cases hp : p = price
    · rw [if_pos hp]
      by_cases he : (q.eraseP (fun o => o.order_id == id)).isEmpty
      · rw [if_pos he]
        exact hrest
      · rw [if_neg he]
        intro l hl
        rcases List.mem_cons.mp hl with h1 | h1
        · intro o2 ho2
          rw [h1]
          have := h (p, q) (List.mem_cons_self _ _) o2
            (List.mem_of_mem_eraseP (h1 ▸ ho2))
          simpa using this
        · exact hrest l h1
    · rw [if_neg hp]
      intro l hl
      rcases List.mem_cons.mp hl with h1 | h1
      · exact h1 ▸ h (p, q) (List.mem_cons_self _ _)
      · exact ih hrest l h1

/-- C5 — cancellation is complete: for an unknown id `CancelOrder` leaves
the book unchanged; for a registered id it removes the id from the
registry and from both side indices, erases the order's price level if
its queue became empty (no empty level survives), and shrinks `Size()` by
exactly one.  `CancelOrder` returns no trades by its very signature
(`void` in the source; a book in the embedding). -/
theorem CancelOrder_spec (b : OrderBook) (id : OrderId) (hwf : b.WF) :
    (b.containsId id = false → b.CancelOrder id = b) ∧
    (b.containsId id = true →
      (b.CancelOrder id).containsId id = false ∧
      id ∉ sideIds (b.CancelOrder id).bids ∧
      id ∉ sideIds (b.CancelOrder id).asks ∧
      (b.CancelOrder id).Size + 1 = b.Size ∧
      levelsNonempty (b.CancelOrder id).bids ∧
      levelsNonempty (b.CancelOrder id).asks) := by
  obtain ⟨hneB, hneA, hordB, hordA, hcohB, hcohA, hndAll, hndReg, hentry,
    hqreg⟩ := hwf
  constructor
  · intro h
    rw [OrderBook.CancelOrder, if_pos (by rw [h]; rfl)]
  · intro h
    obtain ⟨e, hlook, hmem⟩ := containsId_lookupEntry b id h
    obtain ⟨l, hlmem, hlkey, o, homem, hoid, hoside, hoprice, hotype⟩ :=
      hentry (id, e) hmem
    simp only at hoid hoside hoprice hotype hlkey
    have hl2 : l = (e.price, l.2) := Prod.ext hlkey rfl
    rw [OrderBook.CancelOrder, if_neg (by simp [h]), hlook]
    dsimp only
    have hbidsnd : (sideIds b.bids).Nodup := hndAll.of_append_left
    have hasksnd : (sideIds b.asks).Nodup := hndAll.of_append_right
    have hdisj := List.disjoint_of_nodup_append hndAll
    cases hside : e.side with
    | Buy =>
      rw [hside] at hlmem
      simp only [OrderBook.sideLevels] at hlmem
      have hkeysB : (b.bids.map (fun l => l.1)).Nodup :=
        keys_nodup_of_ordered _ b.bids (fun x => by simp) hordB
      have hinbids : id ∈ sideIds b.bids :=
        hoid ▸ mem_sideIds b.bids l o hlmem homem
      refine ⟨?_, ?_, ?_, ?_, ?_, ?_⟩
      · rw [Bool.eq_false_iff]
        intro hc
        exact not_mem_regIds_eraseEntry b.orders id e hndReg hmem
          ((containsId_iff _ id).mp hc)
      · exact not_mem_sideIds_removeFromLevels b.bids e.price id l.2 o
          hbidsnd hkeysB (hl2 ▸ hlmem) homem hoid
      · exact fun hc => hdisj hinbids hc
      · exact regIds_length_eraseEntry b.orders id e hmem
      · exact levelsNonempty_removeFromLevels b.bids e.price id hneB
      · exact hneA
    | Sell =>
      rw [hside] at hlmem
      simp only [OrderBook.sideLevels] at hlmem
      have hkeysA : (b.asks.map (fun l => l.1)).Nodup :=
        keys_nodup_of_ordered _ b.asks (fun x => by simp) hordA
      have hinasks : id ∈ sideIds b.asks :=
        hoid ▸ mem_sideIds b.asks l o hlmem homem
      refine ⟨?_, ?_, ?_, ?_, ?_, ?_⟩
      · rw [Bool.eq_false_iff]
        intro hc
        exact not_mem_regIds_eraseEntry b.orders id e hndReg hmem
          ((containsId_iff _ id).mp hc)
      · exact fun hc => hdisj hc hinasks
      · exact not_mem_sideIds_removeFromLevels b.asks e.price id l.2 o
          hasksnd hkeysA (hl2 ▸ hlmem) homem hoid
      · exact regIds_length_eraseEntry b.orders id e hmem
      · exact hneB
      · exact levelsNonempty_removeFromLevels b.asks e.price id hneA

theorem CancelOrder_spec_witness :
    wBook.WF ∧ wBook.containsId 11 = true ∧
    ((wBook.containsId 11 = false → wBook.CancelOrder 11 = wBook) ∧
    (wBook.containsId 11 = true →
      (wBook.CancelOrder 11).containsId 11 = false ∧
      11 ∉ sideIds (wBook.CancelOrder 11).bids ∧
      11 ∉ sideIds (wBook.CancelOrder 11).asks ∧
      (wBook.CancelOrder 11).Size + 1 = wBook.Size ∧
      levelsNonempty (wBook.CancelOrder 11).bids ∧
      levelsNonempty (wBook.CancelOrder 11).asks)) :=
  ⟨by decide, by decide, CancelOrder_spec wBook 11 (by decide)⟩

/-! ## Insertion lemmas -/

lemma sideIds_insertLevels_perm (cmp : Price → Price → Bool)
    (levels : List Level) (o : Order) :
    (sideIds (insertLevels cmp levels o)).Perm
      (o.order_id :: sideIds levels) := by
  induction levels with
  | nil => simp [insertLevels, sideIds]
  | cons lv rest ih =>
    obtain ⟨p, q⟩ := lv
    rw [insertLevels]
    by_cases h1 : cmp o.price p
    · rw [if_pos h1, sideIds_cons]
      simp [sideIds_cons]
    · rw [if_neg h1]
      by_cases h2 : o.price = p
      · rw [if_pos h2, sideIds_cons, sideIds_cons]
        have heq : (q ++ [o]).map (fun o => o.order_id) ++ sideIds rest =
            q.map (fun o => o.order_id) ++ (o.order_id :: sideIds rest) := by
          simp
        rw [heq]
        exact List.perm_middle
      · rw [if_neg h2, sideIds_cons, sideIds_cons]
        exact List.Perm.trans (List.Perm.append_left _ ih) List.perm_middle

lemma levelsNonempty_insertLevels (cmp : Price → Price → Bool)
    (levels : List Level) (o : Order) (h : levelsNonempty levels) :
    levelsNonempty (insertLevels cmp levels o) := by
  induction levels with
  | nil =>
    intro l hl
    rw [insertLevels] at hl
    rcases List.mem_cons.mp hl with h1 | h1
    · rw [h1]
      simp
    · cases h1
  | cons lv rest ih =>
    obtain ⟨p, q⟩ := lv
    rw [insertLevels]
    have hrest : levelsNonempty rest :=
      fun l hl => h l (List.mem_cons_of_mem _ hl)
    by_cases h1 : cmp o.price p
    · rw [if_pos h1]
      intro l hl
      rcases List.mem_cons.mp hl with h2 | h2
      · rw [h2]
        simp
      · exact h l h2
    · rw [if_neg h1]
      by_cases h2 : o.price = p
      · rw [if_pos h2]
        intro l hl
        rcases List.mem_cons.mp hl with h3 | h3
        · rw [h3]
          simp
        · exact hrest l h3
      · rw [if_neg h2]
        intro l hl
        rcases List.mem_cons.mp hl with h3 | h3
        · rw [h3]
          exact h (p, q) (List.mem_cons_self _ _)
        · exact ih hrest l h3

lemma levelsCoherent_insertLevels (cmp : Price → Price → Bool) (s : Side)
    (levels : List Level) (o : Order) (hs : o.side = s)
    (h : levelsCoherent s levels) :
    levelsCoherent s (insertLevels cmp levels o) := by
  induction levels with
  | nil =>
    intro l hl
    rw [insertLevels] at hl
    rcases List.mem_cons.mp hl with h1 | h1
    · intro o2 ho2
      rw [h1] at ho2
      rcases List.mem_cons.mp ho2 with h3 | h3
      · rw [h3, h1]
        exact ⟨rfl, hs⟩
      · cases h3
    · cases h1
  | cons lv rest ih =>
    obtain ⟨p, q⟩ := lv
    rw [insertLevels]
    have hrest : levelsCoherent s rest :=
      fun l hl => h l (List.mem_cons_of_mem _ hl)
    by_cases h1 : cmp o.price p
    · rw [if_pos h1]
      intro l hl
      rcases List.mem_cons.mp hl with h2 | h2
      · intro o2 ho2
        rw [h2] at ho2
        rcases List.mem_cons.mp ho2 with h3 | h3
        · rw [h3, h2]
          exact ⟨rfl, hs⟩
        · cases h3
      · exact h l h2
    · rw [if_neg h1]
      by_cases h2 : o.price = p
      · rw [if_pos h2]
        intro l hl
        rcases List.mem_cons.mp hl with h3 | h3
        · intro o2 ho2
          rw [h3] at ho2
          rcases List.mem_append.mp ho2 with h4 | h4
          · have := h (p, q) (List.mem_cons_self _ _) o2 h4
            rw [h3]
            simpa using this
          · rw [h3]
            simp only [List.mem_singleton] at h4
            rw [h4]
            exact ⟨h2, hs⟩
        · exact hrest l h3
      · rw [if_neg h2]
        intro l hl
        rcases List.mem_cons.mp hl with h3 | h3
        · exact h3 ▸ h (p, q) (List.mem_cons_self _ _)
        · exact ih hrest l h3

lemma mem_insertLevels_of_mem (cmp : Price → Price → Bool)
    (levels : List Level) (o : Order) (l : Level) (hl : l ∈ levels) :
    ∃ l', l' ∈ insertLevels cmp levels o ∧ l'.1 = l.1 ∧
      ∀ o2 ∈ l.2, o2 ∈ l'.2 := by
  induction levels with
  | nil => cases hl
  | cons lv rest ih =>
    obtain ⟨p, q⟩ := lv
    rw [insertLevels]
    by_cases h1 : cmp o.price p
    · rw [if_pos h1]
      exact ⟨l, List.mem_cons_of_mem _ hl, rfl, fun o2 ho2 => ho2⟩
    · rw [if_neg h1]
      by_cases h2 : o.price = p
      · rw [if_pos h2]
        rcases List.mem_cons.mp hl with h3 | h3
        · refine ⟨(p, q ++ [o]), List.mem_cons_self _ _, by rw [h3], ?_⟩
          intro o2 ho2
          rw [h3] at ho2
          simp only at ho2
          exact List.mem_append_left _ ho2
        · exact ⟨l, List.mem_cons_of_mem _ h3, rfl, fun o2 ho2 => ho2⟩
      · rw [if_neg h2]
        rcases List.mem_cons.mp hl with h3 | h3
        · exact ⟨(p, q), List.mem_cons_self _ _, by rw [h3],
            fun o2 ho2 => by rw [h3] at ho2; exact ho2⟩
        · obtain ⟨l', hl', hkey, hsub⟩ := ih h3
          exact ⟨l', List.mem_cons_of_mem _ hl', hkey, hsub⟩

/-- The queue at a given price level (empty if the level is absent). -/
def queueAt (levels : List Level) (p : Price) : List Order :=
  match levels.find? (fun l => l.1 == p) with
  | none => []
  | some l => l.2

lemma queueAt_nil_of_no_key (levels : List Level) (p : Price)
    (h : ∀ l ∈ levels, l.1 ≠ p) : queueAt levels p = [] := by
  rw [queueAt, List.find?_eq_none.mpr (by intro x hx; simp [h x hx])]

lemma mem_insertLevels (cmp : Price → Price → Bool) (levels : List Level)
    (o : Order) (x : Level) (hx : x ∈ insertLevels cmp levels o) :
    x.1 = o.price ∨ x ∈ levels := by
  induction levels with
  | nil =>
    rw [insertLevels] at hx
    rcases List.mem_cons.mp hx with h1 | h1
    · exact Or.inl (by rw [h1])
    · cases h1
  | cons lv rest ih =>
    obtain ⟨p, q⟩ := lv
    rw [insertLevels] at hx
    by_cases h1 : cmp o.price p
    · rw [if_pos h1] at hx
      rcases List.mem_cons.mp hx with h2 | h2
      · exact Or.inl (by rw [h2])
      · exact Or.inr h2
    · rw [if_neg h1] at hx
      by_cases h2 : o.price = p
      · rw [if_pos h2] at hx
        rcases List.mem_cons.mp hx with h3 | h3
        · exact Or.inl (by rw [h3]; exact h2.symm)
        · exact Or.inr (List.mem_cons_of_mem _ h3)
      · rw [if_neg h2] at hx
        rcases List.mem_cons.mp hx with h3 | h3
        · exact Or.inr (by rw [h3]; exact List.mem_cons_self _ _)
        · rcases ih h3 with h4 | h4
          · exact Or.inl h4
          · exact Or.inr (List.mem_cons_of_mem _ h4)

lemma levelsOrdered_insertLevels (cmp : Price → Price → Bool)
    (htrans : ∀ x y z, cmp x y = true → cmp y z = true → cmp x z = true)
    (htot : ∀ x y, x ≠ y → cmp x y = true ∨ cmp y x = true)
    (levels : List Level) (o : Order) (h : levelsOrdered cmp levels) :
    levelsOrdered cmp (insertLevels cmp levels o) := by
  induction levels with
  | nil =>
    rw [insertLevels]
    exact List.pairwise_singleton _ _
  | cons lv rest ih =>
    obtain ⟨p, q⟩ := lv
    rw [levelsOrdered, List.pairwise_cons] at h
    obtain ⟨hhead, htail⟩ := h
    rw [insertLevels]
    by_cases h1 : cmp o.price p
    · rw [if_pos h1, levelsOrdered, List.pairwise_cons]
      refine ⟨?_, List.Pairwise.cons hhead htail⟩
      intro y hy
      rcases List.mem_cons.mp hy with h2 | h2
      · rw [h2]
        exact h1
      · exact htrans _ _ _ h1 (hhead y h2)
    · rw [if_neg h1]
      by_cases h2 : o.price = p
      · rw [if_pos h2, levelsOrdered, List.pairwise_cons]
        exact ⟨hhead, htail⟩
      · rw [if_neg h2, levelsOrdered, List.pairwise_cons]
        refine ⟨?_, ih htail⟩
        intro y hy
        rcases mem_insertLevels cmp rest o y hy with h3 | h3
        · rw [h3]
          rcases htot o.price p h2 with h4 | h4
          · exact absurd h4 h1
          · exact h4
        · exact hhead y h3

lemma queueAt_insertLevels (cmp : Price → Price → Bool)
    (hirr : ∀ x, cmp x x = false)
    (htrans : ∀ x y z, cmp x y = true → cmp y z = true → cmp x z = true)
    (levels : List Level) (o : Order) (h : levelsOrdered cmp levels) :
    queueAt (insertLevels cmp levels o) o.price =
      queueAt levels o.price ++ [o] := by
  induction levels with
  | nil => simp [insertLevels, queueAt]
  | cons lv rest ih =>
    obtain ⟨p, q⟩ := lv
    rw [levelsOrdered, List.pairwise_cons] at h
    obtain ⟨hhead, htail⟩ := h
    rw [insertLevels]
    by_cases h1 : cmp o.price p
    · rw [if_pos h1]
      have hnp : p ≠ o.price := fun hc =>
        absurd (hc ▸ h1) (by rw [hirr]; simp)
      have hnone : queueAt ((p, q) :: rest) o.price = [] := by
        refine queueAt_nil_of_no_key _ _ ?_
        intro l hl
        rcases List.mem_cons.mp hl with h2 | h2
        · rw [h2]
          exact hnp
        · intro hc
          exact absurd (htrans _ _ _ h1 (hc ▸ hhead l h2))
            (by rw [hirr]; simp)
      rw [hnone, queueAt]
      simp
    · rw [if_neg h1]
      by_cases h2 : o.price = p
      · rw [if_pos h2]
        rw [queueAt, queueAt]
        rw [List.find?_cons_of_pos _ (by simp [h2]),
          List.find?_cons_of_pos _ (by simp [h2])]
      · rw [if_neg h2]
        have hcond : ¬(fun l : Level => l.1 == o.price) (p, q) = true := by
          simp only [beq_iff_eq]
          exact fun hc => h2 hc.symm
        rw [queueAt, queueAt,
          @List.find?_cons_of_neg _ (fun l : Level => l.1 == o.price) (p, q)
            (insertLevels cmp rest o) hcond,
          @List.find?_cons_of_neg _ (fun l : Level => l.1 == o.price) (p, q)
            rest hcond, ← queueAt, ← queueAt]
        exact ih htail

/-! ## Preservation of the invariant -/

lemma levelsNonempty_cons_if (p : Price) (q : List Order)
    (rest : List Level) (h : levelsNonempty rest) :
    levelsNonempty (if q.isEmpty then rest else (p, q) :: rest) := by
  split
  · exact h
  · next hq =>
    intro l hl
    rcases List.mem_cons.mp hl with h1 | h1
    · rw [h1]
      simpa [List.isEmpty_iff] using hq
    · exact h l h1

lemma sideIds_cons_if (p : Price) (q : List Order) (rest : List Level) :
    sideIds (if q.isEmpty then rest else (p, q) :: rest) =
      q.map (fun o => o.order_id) ++ sideIds rest := by
  cases q <;> simp [sideIds_cons]

lemma keys_cons_if (p : Price) (q : List Order) (rest : List Level) :
    ((if q.isEmpty then rest else (p, q) :: rest).map
      (fun l => l.1)).Sublist (p :: rest.map (fun l => l.1)) := by
  cases q <;> simp

lemma levelsOrdered_iff_keys (cmp : Price → Price → Bool)
    (levels : List Level) :
    levelsOrdered cmp levels ↔ List.Pairwise (fun x y => cmp x y = true)
      (levels.map (fun l => l.1)) :=
  Iff.symm List.pairwise_map

lemma levelsOrdered_cons_if (cmp : Price → Price → Bool) (p : Price)
    (q q0 : List Order) (rest : List Level)
    (h : levelsOrdered cmp ((p, q0) :: rest)) :
    levelsOrdered cmp (if q.isEmpty then rest else (p, q) :: rest) := by
  rw [levelsOrdered, List.pairwise_cons] at h
  split
  · exact h.2
  · rw [levelsOrdered, List.pairwise_cons]
    exact ⟨fun y hy => h.1 y hy, h.2⟩

lemma pair_of_mem_regIds (orders : List (OrderId × OrderEntry))
    (id : OrderId) (h : id ∈ orders.map (fun x => x.1)) :
    ∃ e, (id, e) ∈ orders := by
  obtain ⟨x, hx, hx1⟩ := List.mem_map.mp h
  refine ⟨x.2, ?_⟩
  rw [← hx1, Prod.mk.eta]
  exact hx

lemma mem_eraseEntry_of_ne (orders : List (OrderId × OrderEntry))
    (id id' : OrderId) (e' : OrderEntry) (hne : id' ≠ id)
    (h : (id', e') ∈ orders) : (id', e') ∈ eraseEntry orders id :=
  (List.mem_eraseP_of_neg (by simp [hne])).mpr h

lemma mem_regIds_eraseEntry_of_ne (orders : List (OrderId × OrderEntry))
    (id id' : OrderId) (hne : id' ≠ id)
    (h : id' ∈ orders.map (fun x => x.1)) :
    id' ∈ (eraseEntry orders id).map (fun x => x.1) := by
  obtain ⟨e, he⟩ := pair_of_mem_regIds orders id' h
  exact List.mem_map.mpr ⟨(id', e),
    mem_eraseEntry_of_ne orders id id' e hne he, rfl⟩

lemma gtB_irr : ∀ x : Price, decide (x > x) = false := by
  intro x
  simp

lemma gtB_trans : ∀ x y z : Price, decide (x > y) = true →
    decide (y > z) = true → decide (x > z) = true := by
  intro x y z h1 h2
  simp only [decide_eq_true_eq] at h1 h2 ⊢
  exact lt_trans h2 h1

lemma gtB_tot : ∀ x y : Price, x ≠ y →
    decide (x > y) = true ∨ decide (y > x) = true := by
  intro x y h
  simp only [decide_eq_true_eq]
  exact Or.symm (lt_or_gt_of_ne h)

lemma ltB_irr : ∀ x : Price, decide (x < x) = false := by
  intro x
  simp

lemma ltB_trans : ∀ x y z : Price, decide (x < y) = true →
    decide (y < z) = true → decide (x < z) = true := by
  intro x y z h1 h2
  simp only [decide_eq_true_eq] at h1 h2 ⊢
  exact lt_trans h1 h2

lemma ltB_tot : ∀ x y : Price, x ≠ y →
    decide (x < y) = true ∨ decide (y < x) = true := by
  intro x y h
  simp only [decide_eq_true_eq]
  exact lt_or_gt_of_ne h

lemma self_mem_insertLevels (cmp : Price → Price → Bool)
    (levels : List Level) (o : Order) :
    ∃ l, l ∈ insertLevels cmp levels o ∧ l.1 = o.price ∧ o ∈ l.2 := by
  induction levels with
  | nil =>
    exact ⟨(o.price, [o]), List.mem_cons_self _ _, rfl, List.mem_singleton.mpr rfl⟩
  | cons lv rest ih =>
    obtain ⟨p, q⟩ := lv
    rw [insertLevels]
    by_cases h1 : cmp o.price p
    · rw [if_pos h1]
      exact ⟨(o.price, [o]), List.mem_cons_self _ _, rfl,
        List.mem_singleton.mpr rfl⟩
    · rw [if_neg h1]
      by_cases h2 : o.price = p
      · rw [if_pos h2]
        exact ⟨(p, q ++ [o]), List.mem_cons_self _ _, h2.symm,
          List.mem_append_right _ (List.mem_singleton.mpr rfl)⟩
      · rw [if_neg h2]
        obtain ⟨l, hl, hk, ho⟩ := ih
        exact ⟨l, List.mem_cons_of_mem _ hl, hk, ho⟩

/-- One iteration of the matching loop preserves the book invariant. -/
lemma stepBook_WF (x : OrderBook) (bp : Price) (bid : Order)
    (bt : List Order) (restB : List Level) (ap : Price) (ask : Order)
    (at1 : List Order) (restA : List Level)
    (hb : x.bids = (bp, bid :: bt) :: restB)
    (ha : x.asks = (ap, ask :: at1) :: restA)
    (hwf : x.WF) :
    (stepBook x bp bid bt restB ap ask at1 restA).WF := by
  obtain ⟨hneB, hneA, hordB, hordA, hcohB, hcohA, hndAll, hndReg, hentry,
    hqreg⟩ := hwf
  rw [hb] at hneB hordB hcohB
  rw [ha] at hneA hordA hcohA
  set qty := min bid.remaining_quantity ask.remaining_quantity with hqty
  set bid_after : Order :=
    { bid with remaining_quantity := bid.remaining_quantity - qty }
      with hbid_after
  set ask_after : Order :=
    { ask with remaining_quantity := ask.remaining_quantity - qty }
      with hask_after
  set bq : List Order :=
    if bid_after.remaining_quantity = 0 then bt else bid_after :: bt
      with hbq_def
  set aq : List Order :=
    if ask_after.remaining_quantity = 0 then at1 else ask_after :: at1
      with haq_def
  set orders1 : List (OrderId × OrderEntry) :=
    if bid_after.remaining_quantity = 0 then
      eraseEntry x.orders bid.order_id else x.orders with horders1
  set orders2 : List (OrderId × OrderEntry) :=
    if ask_after.remaining_quantity = 0 then
      eraseEntry orders1 ask.order_id else orders1 with horders2
  have hs : stepBook x bp bid bt restB ap ask at1 restA =
      { bids := if bq.isEmpty then restB else (bp, bq) :: restB,
        asks := if aq.isEmpty then restA else (ap, aq) :: restA,
        orders := orders2 } := rfl
  rw [hs]
  have hbq_cases : bq = bt ∨ bq = bid_after :: bt := by
    rw [hbq_def]
    split
    · exact Or.inl rfl
    · exact Or.inr rfl
  have haq_cases : aq = at1 ∨ aq = ask_after :: at1 := by
    rw [haq_def]
    split
    · exact Or.inl rfl
    · exact Or.inr rfl
  have hbq_ids_sub : (bq.map (fun o => o.order_id)).Sublist
      (bid.order_id :: bt.map (fun o => o.order_id)) := by
    rcases hbq_cases with h | h <;> rw [h]
    · exact (List.Sublist.refl _).cons _
    · exact (List.Sublist.refl _).cons₂ _
  have haq_ids_sub : (aq.map (fun o => o.order_id)).Sublist
      (ask.order_id :: at1.map (fun o => o.order_id)) := by
    rcases haq_cases with h | h <;> rw [h]
    · exact (List.Sublist.refl _).cons _
    · exact (List.Sublist.refl _).cons₂ _
  have hbt_sub_bq : ∀ o2 ∈ bt, o2 ∈ bq := by
    rcases hbq_cases with h | h <;> rw [h]
    · exact fun o2 h2 => h2
    · exact fun o2 h2 => List.mem_cons_of_mem _ h2
  have hat_sub_aq : ∀ o2 ∈ at1, o2 ∈ aq := by
    rcases haq_cases with h | h <;> rw [h]
    · exact fun o2 h2 => h2
    · exact fun o2 h2 => List.mem_cons_of_mem _ h2
  have horders1_sub : orders1.Sublist x.orders := by
    rw [horders1]
    split
    · exact List.eraseP_sublist _
    · exact List.Sublist.refl _
  have horders2_sub : orders2.Sublist x.orders := by
    rw [horders2]
    split
    · exact List.Sublist.trans (List.eraseP_sublist _) horders1_sub
    · exact horders1_sub
  have hsideB : sideIds (if bq.isEmpty then restB else (bp, bq) :: restB) =
      bq.map (fun o => o.order_id) ++ sideIds restB := sideIds_cons_if _ _ _
  have hsideA : sideIds (if aq.isEmpty then restA else (ap, aq) :: restA) =
      aq.map (fun o => o.order_id) ++ sideIds restA := sideIds_cons_if _ _ _
  have hallx : x.allIds =
      (bid.order_id :: bt.map (fun o => o.order_id) ++ sideIds restB) ++
      (ask.order_id :: at1.map (fun o => o.order_id) ++ sideIds restA) := by
    rw [OrderBook.allIds, hb, ha, sideIds_cons, sideIds_cons]
    simp
  have hall_sub : ((bq.map (fun o => o.order_id) ++ sideIds restB) ++
      (aq.map (fun o => o.order_id) ++ sideIds restA)).Sublist x.allIds := by
    rw [hallx]
    exact List.Sublist.append
      (List.Sublist.append hbq_ids_sub (List.Sublist.refl _))
      (List.Sublist.append haq_ids_sub (List.Sublist.refl _))
  have hbid_in : bid.order_id ∈ x.allIds := by
    rw [hallx]
    simp
  have hask_in : ask.order_id ∈ x.allIds := by
    rw [hallx]
    simp
  have hbidask_ne : bid.order_id ≠ ask.order_id := by
    intro hc
    rw [hallx] at hndAll
    have hdisj := List.disjoint_of_nodup_append hndAll
    have hbmem : bid.order_id ∈ bid.order_id ::
        (bt.map (fun o => o.order_id) ++ sideIds restB) :=
      List.mem_cons_self _ _
    have hamem : bid.order_id ∈ ask.order_id ::
        (at1.map (fun o => o.order_id) ++ sideIds restA) := by
      rw [hc]
      exact List.mem_cons_self _ _
    exact @hdisj bid.order_id hbmem hamem
  refine ⟨?_, ?_, ?_, ?_, ?_, ?_, ?_, ?_, ?_, ?_⟩
  · exact levelsNonempty_cons_if bp bq restB
      (fun l hl => hneB l (List.mem_cons_of_mem _ hl))
  · exact levelsNonempty_cons_if ap aq restA
      (fun l hl => hneA l (List.mem_cons_of_mem _ hl))
  · exact levelsOrdered_cons_if _ bp bq (bid :: bt) restB hordB
  · exact levelsOrdered_cons_if _ ap aq (ask :: at1) restA hordA
  · -- coherence of the new bid side
    dsimp only
    split
    · exact fun l hl => hcohB l (List.mem_cons_of_mem _ hl)
    · intro l hl
      rcases List.mem_cons.mp hl with h1 | h1
      · intro o2 ho2
        rw [h1] at ho2
        simp only at ho2
        have hbid_coh := hcohB (bp, bid :: bt) (List.mem_cons_self _ _)
        rcases hbq_cases with h2 | h2
        · rw [h2] at ho2
          have := hbid_coh o2 (List.mem_cons_of_mem _ ho2)
          rw [h1]
          simpa using this
        · rw [h2] at ho2
          rcases List.mem_cons.mp ho2 with h3 | h3
          · have := hbid_coh bid (List.mem_cons_self _ _)
            rw [h1, h3, hbid_after]
            simpa using this
          · have := hbid_coh o2 (List.mem_cons_of_mem _ h3)
            rw [h1]
            simpa using this
      · exact hcohB l (List.mem_cons_of_mem _ h1)
  · -- coherence of the new ask side
    dsimp only
    split
    · exact fun l hl => hcohA l (List.mem_cons_of_mem _ hl)
    · intro l hl
      rcases List.mem_cons.mp hl with h1 | h1
      · intro o2 ho2
        rw [h1] at ho2
        simp only at ho2
        have hask_coh := hcohA (ap, ask :: at1) (List.mem_cons_self _ _)
        rcases haq_cases with h2 | h2
        · rw [h2] at ho2
          have := hask_coh o2 (List.mem_cons_of_mem _ ho2)
          rw [h1]
          simpa using this
        · rw [h2] at ho2
          rcases List.mem_cons.mp ho2 with h3 | h3
          · have := hask_coh ask (List.mem_cons_self _ _)
            rw [h1, h3, hask_after]
            simpa using this
          · have := hask_coh o2 (List.mem_cons_of_mem _ h3)
            rw [h1]
            simpa using this
      · exact hcohA l (List.mem_cons_of_mem _ h1)
  · -- allIds nodup
    rw [OrderBook.allIds]
    simp only
    rw [hsideB, hsideA]
    exact hndAll.sublist hall_sub
  · -- regIds nodup
    exact hndReg.sublist (horders2_sub.map _)
  · -- entryMatches
    intro pr hpr
    dsimp only at hpr
    have hprx : pr ∈ x.orders := horders2_sub.subset hpr
    obtain ⟨l, hlmem, hlkey, o', ho'mem, ho'id, ho'side, ho'price, ho'type⟩ :=
      hentry pr hprx
    cases hside : pr.2.side with
    | Buy =>
      rw [hside] at hlmem ho'side
      simp only [OrderBook.sideLevels] at hlmem ⊢
      rw [hb] at hlmem
      rcases List.mem_cons.mp hlmem with hl1 | hl1
      · have ho'mem2 : o' ∈ bid :: bt := by
          rw [hl1] at ho'mem
          exact ho'mem
        have hkeybp : bp = pr.2.price := by
          rw [hl1] at hlkey
          exact hlkey
        rcases List.mem_cons.mp ho'mem2 with ho1 | ho1
        · by_cases hbf : bid_after.remaining_quantity = 0
          · exfalso
            have horders21 : orders2.Sublist orders1 := by
              rw [horders2]
              split
              · exact List.eraseP_sublist _
              · exact List.Sublist.refl _
            have h2 : pr ∈ orders1 := horders21.subset hpr
            rw [horders1, if_pos hbf] at h2
            have h3 : pr.1 ∈ (eraseEntry x.orders bid.order_id).map
                (fun z => z.1) := List.mem_map_of_mem _ h2
            have hpr1 : pr.1 = bid.order_id := by rw [← ho'id, ho1]
            obtain ⟨e0, he0⟩ := pair_of_mem_regIds x.orders bid.order_id
              (hqreg _ hbid_in)
            exact not_mem_regIds_eraseEntry x.orders bid.order_id e0 hndReg
              he0 (hpr1 ▸ h3)
          · have hbqv : bq = bid_after :: bt := by rw [hbq_def, if_neg hbf]
            refine ⟨(bp, bq), ?_, hkeybp, bid_after, ?_, ?_, ?_, ?_, ?_⟩
            · have : (if bq.isEmpty then restB else (bp, bq) :: restB) =
                  (bp, bq) :: restB := by
                rw [hbqv]
                rfl
              rw [this]
              exact List.mem_cons_self _ _
            · rw [hbqv]
              exact List.mem_cons_self _ _
            · show bid.order_id = pr.1
              rw [← ho'id, ho1]
            · show bid.side = Side.Buy
              rw [← ho1]
              exact ho'side
            · show bid.price = pr.2.price
              rw [← ho1]
              exact ho'price
            · show bid.order_type = pr.2.order_type
              rw [← ho1]
              exact ho'type
        · have hone : (if bq.isEmpty then restB else (bp, bq) :: restB) =
              (bp, bq) :: restB := by
            rcases hbq_cases with h2 | h2 <;> rw [h2]
            · cases bt with
              | nil => cases ho1
              | cons hd tl => rfl
            · rfl
          rw [hone]
          exact ⟨(bp, bq), List.mem_cons_self _ _, hkeybp, o',
            hbt_sub_bq o' ho1, ho'id, ho'side, ho'price, ho'type⟩
      · refine ⟨l, ?_, hlkey, o', ho'mem, ho'id, ho'side, ho'price, ho'type⟩
        split
        · exact hl1
        · exact List.mem_cons_of_mem _ hl1
    | Sell =>
      rw [hside] at hlmem ho'side
      simp only [OrderBook.sideLevels] at hlmem ⊢
      rw [ha] at hlmem
      rcases List.mem_cons.mp hlmem with hl1 | hl1
      · have ho'mem2 : o' ∈ ask :: at1 := by
          rw [hl1] at ho'mem
          exact ho'mem
        have hkeyap : ap = pr.2.price := by
          rw [hl1] at hlkey
          exact hlkey
        rcases List.mem_cons.mp ho'mem2 with ho1 | ho1
        · by_cases haf : ask_after.remaining_quantity = 0
          · exfalso
            have hpr2 : pr ∈ eraseEntry orders1 ask.order_id := by
              rw [horders2, if_pos haf] at hpr
              exact hpr
            have h3 : pr.1 ∈ (eraseEntry orders1 ask.order_id).map
                (fun z => z.1) := List.mem_map_of_mem _ hpr2
            have hpr1 : pr.1 = ask.order_id := by rw [← ho'id, ho1]
            obtain ⟨e1, he1⟩ := pair_of_mem_regIds x.orders ask.order_id
              (hqreg _ hask_in)
            have he1o1 : (ask.order_id, e1) ∈ orders1 := by
              rw [horders1]
              split
              · exact mem_eraseEntry_of_ne _ _ _ _ hbidask_ne.symm he1
              · exact he1
            exact not_mem_regIds_eraseEntry orders1 ask.order_id e1
              (hndReg.sublist (horders1_sub.map _)) he1o1 (hpr1 ▸ h3)
          · have haqv : aq = ask_after :: at1 := by rw [haq_def, if_neg haf]
            refine ⟨(ap, aq), ?_, hkeyap, ask_after, ?_, ?_, ?_, ?_, ?_⟩
            · have : (if aq.isEmpty then restA else (ap, aq) :: restA) =
                  (ap, aq) :: restA := by
                rw [haqv]
                rfl
              rw [this]
              exact List.mem_cons_self _ _
            · rw [haqv]
              exact List.mem_cons_self _ _
            · show ask.order_id = pr.1
              rw [← ho'id, ho1]
            · show ask.side = Side.Sell
              rw [← ho1]
              exact ho'side
            · show ask.price = pr.2.price
              rw [← ho1]
              exact ho'price
            · show ask.order_type = pr.2.order_type
              rw [← ho1]
              exact ho'type
        · have hone : (if aq.isEmpty then restA else (ap, aq) :: restA) =
              (ap, aq) :: restA := by
            rcases haq_cases with h2 | h2 <;> rw [h2]
            · cases at1 with
              | nil => cases ho1
              | cons hd tl => rfl
            · rfl
          rw [hone]
          exact ⟨(ap, aq), List.mem_cons_self _ _, hkeyap, o',
            hat_sub_aq o' ho1, ho'id, ho'side, ho'price, ho'type⟩
      · refine ⟨l, ?_, hlkey, o', ho'mem, ho'id, ho'side, ho'price, ho'type⟩
        split
        · exact hl1
        · exact List.mem_cons_of_mem _ hl1
  · -- queuedRegistered
    intro id' hid'
    dsimp only [OrderBook.allIds] at hid'
    rw [hsideB, hsideA] at hid'
    have hid'x : id' ∈ x.allIds := hall_sub.subset hid'
    have hid'reg : id' ∈ regIds x := hqreg id' hid'x
    have hnotbid : bid_after.remaining_quantity = 0 →
        id' ≠ bid.order_id := by
      intro hbf hc
      rw [hc] at hid'
      have hbqv : bq = bt := by rw [hbq_def, if_pos hbf]
      rw [hbqv] at hid'
      rw [hallx] at hndAll
      obtain ⟨h1, h2, hdisj⟩ := List.nodup_append.mp hndAll
      rw [List.cons_append, List.nodup_cons] at h1
      have hright : bid.order_id ∈ ask.order_id ::
          (at1.map (fun o => o.order_id) ++ sideIds restA) → False :=
        fun hmem => @hdisj bid.order_id (List.mem_cons_self _ _)
          (by simpa using hmem)
      rcases List.mem_append.mp hid' with hm | hm
      · exact h1.1 hm
      · rcases List.mem_append.mp hm with hm2 | hm2
        · exact hright (List.mem_cons.mpr (Or.elim
            (List.mem_cons.mp (haq_ids_sub.subset hm2)) Or.inl
            (fun hx => Or.inr (List.mem_append_left _ hx))))
        · exact hright (List.mem_cons.mpr
            (Or.inr (List.mem_append_right _ hm2)))
    have hnotask : ask_after.remaining_quantity = 0 →
        id' ≠ ask.order_id := by
      intro haf hc
      rw [hc] at hid'
      have haqv : aq = at1 := by rw [haq_def, if_pos haf]
      rw [haqv] at hid'
      rw [hallx] at hndAll
      obtain ⟨h1, h2, hdisj⟩ := List.nodup_append.mp hndAll
      rw [List.cons_append, List.nodup_cons] at h2
      have hleft : ask.order_id ∈ bid.order_id ::
          (bt.map (fun o => o.order_id) ++ sideIds restB) → False :=
        fun hmem => @hdisj ask.order_id (by simpa using hmem)
          (List.mem_cons_self _ _)
      rcases List.mem_append.mp hid' with hm | hm
      · rcases List.mem_append.mp hm with hm2 | hm2
        · exact hleft (List.mem_cons.mpr (Or.elim
            (List.mem_cons.mp (hbq_ids_sub.subset hm2)) Or.inl
            (fun hx => Or.inr (List.mem_append_left _ hx))))
        · exact hleft (List.mem_cons.mpr
            (Or.inr (List.mem_append_right _ hm2)))
      · exact h2.1 (by simpa using hm)
    have hreg1 : id' ∈ orders1.map (fun z => z.1) := by
      rw [horders1]
      split
      · next hbf =>
          exact mem_regIds_eraseEntry_of_ne x.orders bid.order_id id'
            (hnotbid hbf) hid'reg
      · exact hid'reg
    show id' ∈ orders2.map (fun z => z.1)
    rw [horders2]
    split
    · next haf =>
        exact mem_regIds_eraseEntry_of_ne orders1 ask.order_id id'
          (hnotask haf) hreg1
    · exact hreg1

/-- The matching loop preserves the book invariant. -/
lemma MatchOrders_WF (b : OrderBook) (hwf : b.WF) :
    ((b.MatchOrders).2).WF := by
  induction b using OrderBook.MatchOrders.induct with
  | case1 x bp bid bt restB ap ask at1 restA hb ha hlt =>
    rw [MatchOrders_terminal_lt x bp bid bt restB ap ask at1 restA hb ha hlt]
    exact hwf
  | case3 x h =>
    rw [MatchOrders_terminal_no_match x h]
    exact hwf
  | case2 x bp bid bt restB ap ask at1 restA hb ha hlt quantity bid_after
      ask_after orders1 orders2 bid_queue ask_queue new_bids new_asks IH =>
    rw [MatchOrders_step_eq x bp bid bt restB ap ask at1 restA hb ha hlt]
    have hstep : stepBook x bp bid bt restB ap ask at1 restA =
        OrderBook.mk new_bids new_asks orders2 := rfl
    rw [hstep]
    exact IH (hstep ▸ stepBook_WF x bp bid bt restB ap ask at1 restA
      hb ha hwf)

/-- When the matching loop exits, either a side is empty or the best
prices no longer cross. -/
lemma MatchOrders_uncrossed (b : OrderBook)
    (hneB : levelsNonempty b.bids) (hneA : levelsNonempty b.asks) :
    ((b.MatchOrders).2).uncrossed := by
  induction b using OrderBook.MatchOrders.induct with
  | case1 x bp bid bt restB ap ask at1 restA hb ha hlt =>
    rw [MatchOrders_terminal_lt x bp bid bt restB ap ask at1 restA hb ha hlt]
    exact Or.inr (Or.inr ⟨bp, ap, by rw [OrderBook.bestBid?, hb]; rfl,
      by rw [OrderBook.bestAsk?, ha]; rfl, hlt⟩)
  | case3 x h =>
    rw [MatchOrders_terminal_no_match x h]
    rcases hxb : x.bids with _ | ⟨⟨bp, bq⟩, restB⟩
    · exact Or.inl hxb
    rcases hxa : x.asks with _ | ⟨⟨ap, aq⟩, restA⟩
    · exact Or.inr (Or.inl hxa)
    rcases hbq : bq with _ | ⟨b1, bt⟩
    · rw [hbq] at hxb
      exfalso
      have := hneB (bp, []) (by rw [hxb]; exact List.mem_cons_self _ _)
      exact this rfl
    rw [hbq] at hxb
    rcases haq : aq with _ | ⟨a1, at1⟩
    · rw [haq] at hxa
      exfalso
      have := hneA (ap, []) (by rw [hxa]; exact List.mem_cons_self _ _)
      exact this rfl
    rw [haq] at hxa
    exact (h bp b1 bt restB ap a1 at1 restA hxb hxa).elim
  | case2 x bp bid bt restB ap ask at1 restA hb ha hlt quantity bid_after
      ask_after orders1 orders2 bid_queue ask_queue new_bids new_asks IH =>
    rw [MatchOrders_step_eq x bp bid bt restB ap ask at1 restA hb ha hlt]
    have hstep : stepBook x bp bid bt restB ap ask at1 restA =
        OrderBook.mk new_bids new_asks orders2 := rfl
    rw [hstep]
    refine IH ?_ ?_
    · exact levelsNonempty_cons_if bp bid_queue restB (fun l hl => hneB l
        (by rw [hb]; exact List.mem_cons_of_mem _ hl))
    · exact levelsNonempty_cons_if ap ask_queue restA (fun l hl => hneA l
        (by rw [ha]; exact List.mem_cons_of_mem _ hl))

lemma insertOrder_allIds_perm (b : OrderBook) (o : Order) :
    ((b.insertOrder o).allIds).Perm (o.order_id :: b.allIds) := by
  cases hos : o.side
  · -- Buy
    have h1 : (b.insertOrder o).allIds =
        sideIds (insertBid b.bids o) ++ sideIds b.asks := by
      simp [OrderBook.insertOrder, OrderBook.allIds, hos]
    rw [h1, OrderBook.allIds]
    exact List.Perm.trans
      (List.Perm.append_right (sideIds b.asks)
        (sideIds_insertLevels_perm _ b.bids o)) (by rw [List.cons_append])
  · -- Sell
    have h1 : (b.insertOrder o).allIds =
        sideIds b.bids ++ sideIds (insertAsk b.asks o) := by
      simp [OrderBook.insertOrder, OrderBook.allIds, hos]
    rw [h1, OrderBook.allIds]
    exact List.Perm.trans
      (List.Perm.append_left (sideIds b.bids)
        (sideIds_insertLevels_perm _ b.asks o))
      List.perm_middle

lemma insertOrder_WF (b : OrderBook) (o : Order) (hwf : b.WF)
    (hnew : b.containsId o.order_id = false) :
    (b.insertOrder o).WF := by
  obtain ⟨hneB, hneA, hordB, hordA, hcohB, hcohA, hndAll, hndReg, hentry,
    hqreg⟩ := hwf
  have hnotreg : o.order_id ∉ regIds b := fun hc =>
    by rw [(containsId_iff b o.order_id).mpr hc] at hnew; cases hnew
  have hnotall : o.order_id ∉ b.allIds := fun hc => hnotreg (hqreg _ hc)
  have hperm := insertOrder_allIds_perm b o
  have hordersEq := insertOrder_orders b o
  cases hos : o.side
  case Buy =>
    have hins : b.insertOrder o =
        OrderBook.mk (insertBid b.bids o) b.asks
          ((o.order_id, OrderEntry.mk o.side o.price o.order_type) ::
            b.orders) := by
      simp [OrderBook.insertOrder, hos]
    rw [hins] at hperm ⊢
    refine ⟨?_, hneA, ?_, hordA, ?_, hcohA, ?_, ?_, ?_, ?_⟩
    · exact levelsNonempty_insertLevels _ b.bids o hneB
    · exact levelsOrdered_insertLevels _ gtB_trans gtB_tot b.bids o hordB
    · exact levelsCoherent_insertLevels _ Side.Buy b.bids o hos hcohB
    · exact (hperm.nodup_iff).mpr (List.nodup_cons.mpr ⟨hnotall, hndAll⟩)
    · show (o.order_id :: regIds b).Nodup
      exact List.nodup_cons.mpr ⟨hnotreg, hndReg⟩
    · intro pr hpr
      rcases List.mem_cons.mp hpr with h1 | h1
      · -- the new entry
        obtain ⟨l, hl, hk, ho⟩ := self_mem_insertLevels
          (fun x y => decide (x > y)) b.bids o
        rw [h1]
        simp only [OrderBook.sideLevels, hos]
        exact ⟨l, hl, by rw [hk], o, ho, rfl, hos, rfl, rfl⟩
      · obtain ⟨l, hl, hk, o', ho', hid', hside', hprice', htype'⟩ :=
          hentry pr h1
        cases hprs : pr.2.side
        case Buy =>
          rw [hprs] at hl
          simp only [OrderBook.sideLevels] at hl ⊢
          obtain ⟨l2, hl2, hk2, hsub2⟩ :=
            mem_insertLevels_of_mem (fun x y => decide (x > y)) b.bids o l hl
          exact ⟨l2, hl2, by rw [hk2]; exact hk, o', hsub2 o' ho', hid',
            by rw [← hprs]; exact hside', hprice', htype'⟩
        case Sell =>
          rw [hprs] at hl
          simp only [OrderBook.sideLevels] at hl ⊢
          exact ⟨l, hl, hk, o', ho', hid', by rw [← hprs]; exact hside',
            hprice', htype'⟩
    · intro id' hid'
      have := hperm.mem_iff.mp hid'
      rcases List.mem_cons.mp this with h1 | h1
      · rw [h1]
        exact List.mem_cons_self _ _
      · exact List.mem_cons_of_mem _ (hqreg _ h1)
  case Sell =>
    have hins : b.insertOrder o =
        OrderBook.mk b.bids (insertAsk b.asks o)
          ((o.order_id, OrderEntry.mk o.side o.price o.order_type) ::
            b.orders) := by
      simp [OrderBook.insertOrder, hos]
    rw [hins] at hperm ⊢
    refine ⟨hneB, ?_, hordB, ?_, hcohB, ?_, ?_, ?_, ?_, ?_⟩
    · exact levelsNonempty_insertLevels _ b.asks o hneA
    · exact levelsOrdered_insertLevels _ ltB_trans ltB_tot b.asks o hordA
    · exact levelsCoherent_insertLevels _ Side.Sell b.asks o hos hcohA
    · exact (hperm.nodup_iff).mpr (List.nodup_cons.mpr ⟨hnotall, hndAll⟩)
    · show (o.order_id :: regIds b).Nodup
      exact List.nodup_cons.mpr ⟨hnotreg, hndReg⟩
    · intro pr hpr
      rcases List.mem_cons.mp hpr with h1 | h1
      · obtain ⟨l, hl, hk, ho⟩ := self_mem_insertLevels
          (fun x y => decide (x < y)) b.asks o
        rw [h1]
        simp only [OrderBook.sideLevels, hos]
        exact ⟨l, hl, by rw [hk], o, ho, rfl, hos, rfl, rfl⟩
      · obtain ⟨l, hl, hk, o', ho', hid', hside', hprice', htype'⟩ :=
          hentry pr h1
        cases hprs : pr.2.side
        case Buy =>
          rw [hprs] at hl
          simp only [OrderBook.sideLevels] at hl ⊢
          exact ⟨l, hl, hk, o', ho', hid', by rw [← hprs]; exact hside',
            hprice', htype'⟩
        case Sell =>
          rw [hprs] at hl
          simp only [OrderBook.sideLevels] at hl ⊢
          obtain ⟨l2, hl2, hk2, hsub2⟩ :=
            mem_insertLevels_of_mem (fun x y => decide (x < y)) b.asks o l hl
          exact ⟨l2, hl2, by rw [hk2]; exact hk, o', hsub2 o' ho', hid',
            by rw [← hprs]; exact hside', hprice', htype'⟩
    · intro id' hid'
      have := hperm.mem_iff.mp hid'
      rcases List.mem_cons.mp this with h1 | h1
      · rw [h1]
        exact List.mem_cons_self _ _
      · exact List.mem_cons_of_mem _ (hqreg _ h1)

/-- `AddOrder` preserves the invariant, and the book it returns is
uncrossed. -/
lemma AddOrder_inv (b : OrderBook) (o : Order) (hwf : b.WF)
    (hunc : b.uncrossed) :
    ((b.AddOrder o).2).WF ∧ ((b.AddOrder o).2).uncrossed := by
  by_cases h1 : b.containsId o.order_id = true
  · rw [OrderBook.AddOrder, if_pos h1]
    exact ⟨hwf, hunc⟩
  by_cases h2 : o.order_type = OrderType.FillAndKill ∧
      b.CanMatch o.side o.price = false
  · rw [OrderBook.AddOrder, if_neg h1, if_pos (by simp [h2.1, h2.2])]
    exact ⟨hwf, hunc⟩
  · rw [AddOrder_eq b o h1 h2]
    have hwf2 : (b.insertOrder o).WF :=
      insertOrder_WF b o hwf (Bool.eq_false_iff.mpr h1)
    exact ⟨MatchOrders_WF _ hwf2,
      MatchOrders_uncrossed _ hwf2.1 hwf2.2.1⟩

/-- Shrinking each side's key list (keeping order) preserves
uncrossedness. -/
lemma uncrossed_of_keys_sublist (b b2 : OrderBook)
    (hbk : (b2.bids.map (fun l => l.1)).Sublist
      (b.bids.map (fun l => l.1)))
    (hak : (b2.asks.map (fun l => l.1)).Sublist
      (b.asks.map (fun l => l.1)))
    (hordB : levelsOrdered (fun x y => x > y) b.bids)
    (hordA : levelsOrdered (fun x y => x < y) b.asks)
    (hunc : b.uncrossed) : b2.uncrossed := by
  rcases h2b : b2.bids with _ | ⟨⟨bp2, bq2⟩, restB2⟩
  · exact Or.inl h2b
  rcases h2a : b2.asks with _ | ⟨⟨ap2, aq2⟩, restA2⟩
  · exact Or.inr (Or.inl h2a)
  rw [h2b] at hbk
  rw [h2a] at hak
  have hbp2mem : bp2 ∈ b.bids.map (fun l => l.1) :=
    hbk.subset (List.mem_cons_self _ _)
  have hap2mem : ap2 ∈ b.asks.map (fun l => l.1) :=
    hak.subset (List.mem_cons_self _ _)
  rcases hb : b.bids with _ | ⟨⟨bp, bq⟩, restB⟩
  · rw [hb] at hbp2mem
    cases hbp2mem
  rcases ha : b.asks with _ | ⟨⟨ap, aq⟩, restA⟩
  · rw [ha] at hap2mem
    cases hap2mem
  rcases hunc with h | h | ⟨bb, ba, hbb, hba, hlt⟩
  · rw [h] at hb
    cases hb
  · rw [h] at ha
    cases ha
  have hbbv : bb = bp := by
    rw [OrderBook.bestBid?, hb] at hbb
    simpa using hbb.symm
  have hbav : ba = ap := by
    rw [OrderBook.bestAsk?, ha] at hba
    simpa using hba.symm
  rw [hbbv, hbav] at hlt
  have hble : bp2 ≤ bp := by
    rw [hb, List.map_cons] at hbp2mem
    rcases List.mem_cons.mp hbp2mem with h3 | h3
    · exact le_of_eq h3
    · rw [hb] at hordB
      rw [levelsOrdered, List.pairwise_cons] at hordB
      obtain ⟨l2, hl2, hl2k⟩ := List.mem_map.mp h3
      have := hordB.1 l2 hl2
      simp only [decide_eq_true_eq] at this
      rw [hl2k] at this
      exact le_of_lt this
  have hage : ap ≤ ap2 := by
    rw [ha, List.map_cons] at hap2mem
    rcases List.mem_cons.mp hap2mem with h3 | h3
    · exact le_of_eq h3.symm
    · rw [ha] at hordA
      rw [levelsOrdered, List.pairwise_cons] at hordA
      obtain ⟨l2, hl2, hl2k⟩ := List.mem_map.mp h3
      have := hordA.1 l2 hl2
      simp only [decide_eq_true_eq] at this
      rw [hl2k] at this
      exact le_of_lt this
  exact Or.inr (Or.inr ⟨bp2, ap2,
    by rw [OrderBook.bestBid?, h2b]; rfl,
    by rw [OrderBook.bestAsk?, h2a]; rfl,
    lt_of_le_of_lt hble (lt_of_lt_of_le hlt hage)⟩)

/-- `CancelOrder` preserves the invariant and uncrossedness. -/
lemma CancelOrder_inv (b : OrderBook) (id : OrderId) (hwf : b.WF)
    (hunc : b.uncrossed) :
    (b.CancelOrder id).WF ∧ (b.CancelOrder id).uncrossed := by
  by_cases h : b.containsId id = true
  swap
  · rw [OrderBook.CancelOrder,
      if_pos (by rw [Bool.eq_false_iff.mpr h]; rfl)]
    exact ⟨hwf, hunc⟩
  obtain ⟨hneB, hneA, hordB, hordA, hcohB, hcohA, hndAll, hndReg, hentry,
    hqreg⟩ := hwf
  obtain ⟨e, hlook, hmem⟩ := containsId_lookupEntry b id h
  obtain ⟨l, hlmem, hlkey, o, homem, hoid, hoside, hoprice, hotype⟩ :=
    hentry (id, e) hmem
  simp only at hoid hoside hoprice hotype hlkey
  have hl2 : l = (e.price, l.2) := Prod.ext hlkey rfl
  rw [OrderBook.CancelOrder, if_neg (by simp [h]), hlook]
  dsimp only
  have hbidsnd : (sideIds b.bids).Nodup := hndAll.of_append_left
  have hasksnd : (sideIds b.asks).Nodup := hndAll.of_append_right
  have hdisj := List.disjoint_of_nodup_append hndAll
  have hkeysB : (b.bids.map (fun l => l.1)).Nodup :=
    keys_nodup_of_ordered _ b.bids (fun x => by simp) hordB
  have hkeysA : (b.asks.map (fun l => l.1)).Nodup :=
    keys_nodup_of_ordered _ b.asks (fun x => by simp) hordA
  cases hside : e.side with
  | Buy =>
    rw [hside] at hlmem
    simp only [OrderBook.sideLevels] at hlmem
    have hinbids : id ∈ sideIds b.bids :=
      hoid ▸ mem_sideIds b.bids l o hlmem homem
    have hnotid : id ∉ sideIds (removeFromLevels b.bids e.price id) :=
      not_mem_sideIds_removeFromLevels b.bids e.price id l.2 o hbidsnd
        hkeysB (hl2 ▸ hlmem) homem hoid
    constructor
    · refine ⟨?_, hneA, ?_, hordA, ?_, hcohA, ?_, ?_, ?_, ?_⟩
      · exact levelsNonempty_removeFromLevels b.bids e.price id hneB
      · rw [levelsOrdered_iff_keys] at hordB ⊢
        exact hordB.sublist (keys_removeFromLevels_sublist b.bids e.price id)
      · exact levelsCoherent_removeFromLevels Side.Buy b.bids e.price id hcohB
      · exact hndAll.sublist (List.Sublist.append
          (sideIds_removeFromLevels_sublist b.bids e.price id)
          (List.Sublist.refl _))
      · exact hndReg.sublist ((List.eraseP_sublist _).map _)
      · intro pr hpr
        have hpr_orders : pr ∈ b.orders := (List.eraseP_sublist _).subset hpr
        have hprne : pr.1 ≠ id := by
          intro hc
          have h3 : pr.1 ∈ (eraseEntry b.orders id).map (fun z => z.1) :=
            List.mem_map_of_mem _ hpr
          rw [hc] at h3
          exact not_mem_regIds_eraseEntry b.orders id e hndReg hmem h3
        obtain ⟨l2, hl2m, hl2k, o2, ho2, ho2id, ho2side, ho2price,
          ho2type⟩ := hentry pr hpr_orders
        have ho2ne : o2.order_id ≠ id := by rw [ho2id]; exact hprne
        cases hprs : pr.2.side with
        | Buy =>
          rw [hprs] at hl2m ho2side
          simp only [OrderBook.sideLevels] at hl2m ⊢
          by_cases hkey : l2.1 = e.price
          · have hl2eq : (e.price, l2.2) ∈ b.bids := by
              rw [← hkey, Prod.mk.eta] at *
              exact hl2m
            obtain ⟨q', hq'mem, ho2q'⟩ := removeFromLevels_same_level
              b.bids e.price id l2.2 hkeysB hl2eq o2 ho2 ho2ne
            exact ⟨(e.price, q'), hq'mem, by rw [← hkey]; exact hl2k, o2,
              ho2q', ho2id, ho2side, ho2price, ho2type⟩
          · exact ⟨l2, removeFromLevels_mem_of_ne b.bids e.price id l2
              hl2m hkey, hl2k, o2, ho2, ho2id, ho2side, ho2price, ho2type⟩
        | Sell =>
          rw [hprs] at hl2m ho2side
          simp only [OrderBook.sideLevels] at hl2m ⊢
          exact ⟨l2, hl2m, hl2k, o2, ho2, ho2id, ho2side, ho2price, ho2type⟩
      · intro id2 hid2
        dsimp only [OrderBook.allIds] at hid2
        have hid2b : id2 ∈ b.allIds := by
          rw [OrderBook.allIds]
          exact (List.Sublist.append
            (sideIds_removeFromLevels_sublist b.bids e.price id)
            (List.Sublist.refl (sideIds b.asks))).subset hid2
        have hid2ne : id2 ≠ id := by
          intro hc
          rcases List.mem_append.mp hid2 with hm | hm
          · exact hnotid (hc ▸ hm)
          · exact hdisj hinbids (hc ▸ hm)
        exact mem_regIds_eraseEntry_of_ne b.orders id id2 hid2ne
          (hqreg id2 hid2b)
    · refine uncrossed_of_keys_sublist b _ ?_ ?_ hordB hordA hunc
      · exact keys_removeFromLevels_sublist b.bids e.price id
      · exact List.Sublist.refl _
  | Sell =>
    rw [hside] at hlmem
    simp only [OrderBook.sideLevels] at hlmem
    have hinasks : id ∈ sideIds b.asks :=
      hoid ▸ mem_sideIds b.asks l o hlmem homem
    have hnotid : id ∉ sideIds (removeFromLevels b.asks e.price id) :=
      not_mem_sideIds_removeFromLevels b.asks e.price id l.2 o hasksnd
        hkeysA (hl2 ▸ hlmem) homem hoid
    constructor
    · refine ⟨hneB, ?_, hordB, ?_, hcohB, ?_, ?_, ?_, ?_, ?_⟩
      · exact levelsNonempty_removeFromLevels b.asks e.price id hneA
      · rw [levelsOrdered_iff_keys] at hordA ⊢
        exact hordA.sublist (keys_removeFromLevels_sublist b.asks e.price id)
      · exact levelsCoherent_removeFromLevels Side.Sell b.asks e.price id
          hcohA
      · exact hndAll.sublist (List.Sublist.append (List.Sublist.refl _)
          (sideIds_removeFromLevels_sublist b.asks e.price id))
      · exact hndReg.sublist ((List.eraseP_sublist _).map _)
      · intro pr hpr
        have hpr_orders : pr ∈ b.orders := (List.eraseP_sublist _).subset hpr
        have hprne : pr.1 ≠ id := by
          intro hc
          have h3 : pr.1 ∈ (eraseEntry b.orders id).map (fun z => z.1) :=
            List.mem_map_of_mem _ hpr
          rw [hc] at h3
          exact not_mem_regIds_eraseEntry b.orders id e hndReg hmem h3
        obtain ⟨l2, hl2m, hl2k, o2, ho2, ho2id, ho2side, ho2price,
          ho2type⟩ := hentry pr hpr_orders
        have ho2ne : o2.order_id ≠ id := by rw [ho2id]; exact hprne
        cases hprs : pr.2.side with
        | Buy =>
          rw [hprs] at hl2m ho2side
          simp only [OrderBook.sideLevels] at hl2m ⊢
          exact ⟨l2, hl2m, hl2k, o2, ho2, ho2id, ho2side, ho2price, ho2type⟩
        | Sell =>
          rw [hprs] at hl2m ho2side
          simp only [OrderBook.sideLevels] at hl2m ⊢
          by_cases hkey : l2.1 = e.price
          · have hl2eq : (e.price, l2.2) ∈ b.asks := by
              rw [← hkey, Prod.mk.eta] at *
              exact hl2m
            obtain ⟨q', hq'mem, ho2q'⟩ := removeFromLevels_same_level
              b.asks e.price id l2.2 hkeysA hl2eq o2 ho2 ho2ne
            exact ⟨(e.price, q'), hq'mem, by rw [← hkey]; exact hl2k, o2,
              ho2q', ho2id, ho2side, ho2price, ho2type⟩
          · exact ⟨l2, removeFromLevels_mem_of_ne b.asks e.price id l2
              hl2m hkey, hl2k, o2, ho2, ho2id, ho2side, ho2price, ho2type⟩
      · intro id2 hid2
        dsimp only [OrderBook.allIds] at hid2
        have hid2b : id2 ∈ b.allIds := by
          rw [OrderBook.allIds]
          exact (List.Sublist.append (List.Sublist.refl (sideIds b.bids))
            (sideIds_removeFromLevels_sublist b.asks e.price id)).subset hid2
        have hid2ne : id2 ≠ id := by
          intro hc
          rcases List.mem_append.mp hid2 with hm | hm
          · exact hdisj (hc ▸ hm) hinasks
          · exact hnotid (hc ▸ hm)
        exact mem_regIds_eraseEntry_of_ne b.orders id id2 hid2ne
          (hqreg id2 hid2b)
    · refine uncrossed_of_keys_sublist b _ ?_ ?_ hordB hordA hunc
      · exact List.Sublist.refl _
      · exact keys_removeFromLevels_sublist b.asks e.price id

/-- `MatchOrder` (the modify operation) preserves the invariant and
uncrossedness. -/
lemma MatchOrder_inv (b : OrderBook) (m : OrderModify) (hwf : b.WF)
    (hunc : b.uncrossed) :
    ((b.MatchOrder m).2).WF ∧ ((b.MatchOrder m).2).uncrossed := by
  rw [OrderBook.MatchOrder]
  by_cases h : b.containsId m.order_id = true
  · rw [if_neg (by simp [h])]
    rcases hlook : lookupEntry b.orders m.order_id with _ | e
    · exact ⟨hwf, hunc⟩
    · dsimp only
      obtain ⟨hwf1, hunc1⟩ := CancelOrder_inv b m.order_id hwf hunc
      exact AddOrder_inv _ _ hwf1 hunc1
  · rw [if_pos (by rw [Bool.eq_false_iff.mpr h]; rfl)]
    exact ⟨hwf, hunc⟩

/-- Every book reachable through the public interface satisfies the
invariant and is uncrossed. -/
lemma Reachable_inv (b : OrderBook) (h : b.Reachable) :
    b.WF ∧ b.uncrossed := by
  induction h with
  | empty => exact ⟨by decide, Or.inl rfl⟩
  | add b o _ ih => exact AddOrder_inv b o ih.1 ih.2
  | cancel b id _ ih => exact CancelOrder_inv b id ih.1 ih.2
  | modify b m _ ih => exact MatchOrder_inv b m ih.1 ih.2

/-- C3 — no self-crossing residue: in every book reachable through the
public interface (so in particular after every `AddOrder` or
`MatchOrder`/modify call returns, and at the start), either a side is
empty or the best bid price is strictly below the best ask price; a state
with `best_bid ≥ best_ask` is never observable between public calls. -/
theorem reachable_uncrossed (b : OrderBook) (h : b.Reachable) :
    b.bids = [] ∨ b.asks = [] ∨
      ∃ bb ba, b.bestBid? = some bb ∧ b.bestAsk? = some ba ∧ bb < ba :=
  (Reachable_inv b h).2

theorem reachable_uncrossed_witness :
    (((OrderBook.empty.AddOrder gtcSell).2.AddOrder fakBuy).2.Reachable) ∧
    (((OrderBook.empty.AddOrder gtcSell).2.AddOrder fakBuy).2.bids = [] ∨
      ((OrderBook.empty.AddOrder gtcSell).2.AddOrder fakBuy).2.asks = [] ∨
      ∃ bb ba,
        ((OrderBook.empty.AddOrder gtcSell).2.AddOrder
          fakBuy).2.bestBid? = some bb ∧
        ((OrderBook.empty.AddOrder gtcSell).2.AddOrder
          fakBuy).2.bestAsk? = some ba ∧ bb < ba) :=
  ⟨OrderBook.Reachable.add _ fakBuy
    (OrderBook.Reachable.add _ gtcSell OrderBook.Reachable.empty),
   reachable_uncrossed _ (OrderBook.Reachable.add _ fakBuy
    (OrderBook.Reachable.add _ gtcSell OrderBook.Reachable.empty))⟩

/-! ## The modify operation -/

lemma lookupEntry_mem (orders : List (OrderId × OrderEntry)) (id : OrderId)
    (e : OrderEntry) (h : lookupEntry orders id = some e) :
    (id, e) ∈ orders := by
  rw [lookupEntry] at h
  rcases hf : orders.find? (fun x => x.1 == id) with _ | y
  · rw [hf] at h
    cases h
  · rw [hf] at h
    have hmem := List.mem_of_find?_eq_some hf
    have hpy := List.find?_some hf
    rw [beq_iff_eq] at hpy
    have he : y.2 = e := by
      simpa using h
    have : y = (id, e) := Prod.ext hpy he
    rw [← this]
    exact hmem

lemma lookupEntry_containsId (b : OrderBook) (id : OrderId)
    (e : OrderEntry) (h : lookupEntry b.orders id = some e) :
    b.containsId id = true := by
  rw [OrderBook.containsId, List.any_eq_true]
  exact ⟨(id, e), lookupEntry_mem b.orders id e h, by simp⟩

/-- The head of an insertion: either the fresh singleton level sits in
front, or the old head level survives (possibly with the order appended
to its queue). -/
lemma insertLevels_head (cmp : Price → Price → Bool) (levels : List Level)
    (o : Order) :
    insertLevels cmp levels o = (o.price, [o]) :: levels ∨
    ∃ p q rest3, levels = (p, q) :: rest3 ∧
      (insertLevels cmp levels o = (p, q ++ [o]) :: rest3 ∨
       insertLevels cmp levels o = (p, q) :: insertLevels cmp rest3 o) := by
  cases levels with
  | nil => exact Or.inl (by rw [insertLevels])
  | cons lv rest =>
    obtain ⟨p, q⟩ := lv
    rw [insertLevels]
    by_cases h1 : cmp o.price p
    · rw [if_pos h1]
      exact Or.inl rfl
    · rw [if_neg h1]
      by_cases h2 : o.price = p
      · rw [if_pos h2]
        exact Or.inr ⟨p, q, rest, rfl, Or.inl rfl⟩
      · rw [if_neg h2]
        exact Or.inr ⟨p, q, rest, rfl, Or.inr rfl⟩

/-- A buy order that cannot match rests: the matching loop does nothing. -/
lemma AddOrder_rests_buy (bc : OrderBook) (o' : Order) (hwfc : bc.WF)
    (huncc : bc.uncrossed)
    (hnew : bc.containsId o'.order_id = false)
    (hgtc : o'.order_type = OrderType.GoodTillCancel)
    (hbuy : o'.side = Side.Buy)
    (hnc : bc.CanMatch Side.Buy o'.price = false) :
    bc.AddOrder o' = ([], bc.insertOrder o') := by
  rw [AddOrder_eq bc o' (by rw [hnew]; simp)
    (by rw [hgtc]; rintro ⟨hc, _⟩; cases hc)]
  have hasks : (bc.insertOrder o').asks = bc.asks := by
    simp [OrderBook.insertOrder, hbuy]
  have hbids : (bc.insertOrder o').bids = insertBid bc.bids o' := by
    simp [OrderBook.insertOrder, hbuy]
  rcases hca : bc.asks with _ | ⟨⟨ap, aq⟩, restA⟩
  · refine MatchOrders_terminal_no_match _ ?_
    intro bp bid bt restB ap2 ask at1 restA2 hb2 ha2
    rw [hasks, hca] at ha2
    cases ha2
  · have hlt : o'.price < ap := by
      rw [OrderBook.CanMatch, hca] at hnc
      simpa using hnc
    rcases haq : aq with _ | ⟨a1, at1⟩
    · exfalso
      have := hwfc.2.1 (ap, aq) (by rw [hca]; exact List.mem_cons_self _ _)
      rw [haq] at this
      exact this rfl
    rcases insertLevels_head (fun x y => decide (x > y)) bc.bids o' with
      h1 | ⟨p, q, rest3, hlv, h2⟩
    · refine MatchOrders_terminal_lt _ o'.price o' [] bc.bids ap a1 at1
        restA ?_ ?_ hlt
      · rw [hbids, insertBid, h1]
      · rw [hasks, hca, haq]
    · have hple : p < ap := by
        rcases huncc with hu | hu | ⟨bb, ba, hbb, hba, hblt⟩
        · rw [hu] at hlv
          cases hlv
        · rw [hu] at hca
          cases hca
        · have hbbv : bb = p := by
            rw [OrderBook.bestBid?, hlv] at hbb
            simpa using hbb.symm
          have hbav : ba = ap := by
            rw [OrderBook.bestAsk?, hca] at hba
            simpa using hba.symm
          rw [hbbv, hbav] at hblt
          exact hblt
      rcases hq : q with _ | ⟨q1, qt⟩
      · exfalso
        have := hwfc.1 (p, q) (by rw [hlv]; exact List.mem_cons_self _ _)
        rw [hq] at this
        exact this rfl
      rcases h2 with h2 | h2
      · refine MatchOrders_terminal_lt _ p q1 (qt ++ [o']) rest3 ap a1 at1
          restA ?_ ?_ hple
        · rw [hbids, insertBid, h2, hq]
          rfl
        · rw [hasks, hca, haq]
      · refine MatchOrders_terminal_lt _ p q1 qt
          (insertLevels (fun x y => decide (x > y)) rest3 o') ap a1 at1
          restA ?_ ?_ hple
        · rw [hbids, insertBid, h2, hq]
        · rw [hasks, hca, haq]

/-- C6 — the modify operation: unknown id is a no-op returning no trades;
a known id is equivalent to capturing the existing order's kind (the kind
the registry records for a resting order with that id), canceling it, and
resubmitting a fresh order with the same id, the captured kind, and the
supplied side, price and quantity through `AddOrder`; consequently a
modified (non-crossing, GoodTillCancel, buy) order is re-queued at the
back of its price level's queue, losing time priority even when the price
is unchanged. -/
theorem MatchOrder_spec (b : OrderBook) (m : OrderModify) :
    (b.containsId m.order_id = false → b.MatchOrder m = ([], b)) ∧
    (∀ e, lookupEntry b.orders m.order_id = some e →
      b.MatchOrder m = (b.CancelOrder m.order_id).AddOrder
        (m.ToOrderPointer e.order_type)) ∧
    (∀ e, b.WF → lookupEntry b.orders m.order_id = some e →
      ∃ l ∈ b.sideLevels e.side, l.1 = e.price ∧ ∃ o ∈ l.2,
        o.order_id = m.order_id ∧ o.order_type = e.order_type) ∧
    (∀ e, b.WF → b.uncrossed →
      lookupEntry b.orders m.order_id = some e →
      e.order_type = OrderType.GoodTillCancel →
      m.side = Side.Buy →
      (b.CancelOrder m.order_id).CanMatch Side.Buy m.price = false →
      (b.MatchOrder m).1 = [] ∧
      queueAt ((b.MatchOrder m).2).bids m.price =
        queueAt ((b.CancelOrder m.order_id).bids) m.price ++
          [m.ToOrderPointer e.order_type]) := by
  have heq : ∀ e, lookupEntry b.orders m.order_id = some e →
      b.MatchOrder m = (b.CancelOrder m.order_id).AddOrder
        (m.ToOrderPointer e.order_type) := by
    intro e hlook
    rw [OrderBook.MatchOrder,
      if_neg (by simp [lookupEntry_containsId b m.order_id e hlook]), hlook]
  refine ⟨?_, heq, ?_, ?_⟩
  · intro h
    rw [OrderBook.MatchOrder, if_pos (by rw [h]; rfl)]
  · intro e hwf hlook
    obtain ⟨l, hl, hk, o, ho, hid, hside, hprice, htype⟩ :=
      hwf.2.2.2.2.2.2.2.2.1 (m.order_id, e) (lookupEntry_mem _ _ _ hlook)
    exact ⟨l, hl, hk, o, ho, hid, htype⟩
  · intro e hwf hunc hlook hgtc hbuy hnc
    obtain ⟨hwfc, huncc⟩ := CancelOrder_inv b m.order_id hwf hunc
    have hcontains : b.containsId m.order_id = true :=
      lookupEntry_containsId b m.order_id e hlook
    have hgone : (b.CancelOrder m.order_id).containsId m.order_id =
        false :=
      ((CancelOrder_spec b m.order_id hwf).2 hcontains).1
    have ho' : (m.ToOrderPointer e.order_type).order_type =
        OrderType.GoodTillCancel := hgtc
    have hrest := AddOrder_rests_buy (b.CancelOrder m.order_id)
      (m.ToOrderPointer e.order_type) hwfc huncc hgone ho' hbuy hnc
    rw [heq e hlook, hrest]
    constructor
    · rfl
    · have hbids : ((b.CancelOrder m.order_id).insertOrder
          (m.ToOrderPointer e.order_type)).bids =
          insertBid (b.CancelOrder m.order_id).bids
            (m.ToOrderPointer e.order_type) := by
        simp [OrderBook.insertOrder, OrderModify.ToOrderPointer, hbuy]
      rw [hbids, insertBid]
      have hqa := queueAt_insertLevels (fun x y => decide (x > y)) gtB_irr
        gtB_trans (b.CancelOrder m.order_id).bids
        (m.ToOrderPointer e.order_type) hwfc.2.2.1
      simpa using hqa

/-- A small uncrossed book with a resting GoodTillCancel buy order used
to witness the modify theorem. -/
def mBook : OrderBook :=
  ⟨[(99, [⟨OrderType.GoodTillCancel, 21, Side.Buy, 99, 5, 5⟩])],
   [(101, [⟨OrderType.GoodTillCancel, 22, Side.Sell, 101, 7, 7⟩])],
   [(21, ⟨Side.Buy, 99, OrderType.GoodTillCancel⟩),
    (22, ⟨Side.Sell, 101, OrderType.GoodTillCancel⟩)]⟩

def mMod : OrderModify := ⟨21, Side.Buy, 100, 6⟩

theorem MatchOrder_spec_witness :
    (lookupEntry mBook.orders mMod.order_id =
      some ⟨Side.Buy, 99, OrderType.GoodTillCancel⟩) ∧
    mBook.WF ∧
    mBook.uncrossed ∧
    ((mBook.CancelOrder mMod.order_id).CanMatch Side.Buy mMod.price =
      false) ∧
    ((mBook.MatchOrder mMod).1 = [] ∧
      queueAt ((mBook.MatchOrder mMod).2).bids mMod.price =
        queueAt ((mBook.CancelOrder mMod.order_id).bids) mMod.price ++
          [mMod.ToOrderPointer OrderType.GoodTillCancel]) :=
  ⟨by decide, by decide,
   Or.inr (Or.inr ⟨99, 101, rfl, rfl, by decide⟩),
   by decide,
   (MatchOrder_spec mBook mMod).2.2.2 ⟨Side.Buy, 99,
      OrderType.GoodTillCancel⟩ (by decide)
      (Or.inr (Or.inr ⟨99, 101, rfl, rfl, by decide⟩)) (by decide) rfl rfl
      (by decide)⟩

/-- C10 — modifying a resting FillAndKill order to parameters under which
it cannot match first cancels it and then the re-add is rejected: the
call returns no trades and the id is gone from the registry and both side
indices, with `Size()` down by one — the modify silently deletes the
order. -/
theorem MatchOrder_fak_deletes (b : OrderBook) (m : OrderModify)
    (e : OrderEntry) (hwf : b.WF)
    (hlook : lookupEntry b.orders m.order_id = some e)
    (htype : e.order_type = OrderType.FillAndKill)
    (hnc : (b.CancelOrder m.order_id).CanMatch m.side m.price = false) :
    (b.MatchOrder m).1 = [] ∧
    (b.MatchOrder m).2 = b.CancelOrder m.order_id ∧
    ((b.MatchOrder m).2).containsId m.order_id = false ∧
    m.order_id ∉ sideIds ((b.MatchOrder m).2).bids ∧
    m.order_id ∉ sideIds ((b.MatchOrder m).2).asks ∧
    ((b.MatchOrder m).2).Size + 1 = b.Size := by
  have hcontains : b.containsId m.order_id = true :=
    lookupEntry_containsId b m.order_id e hlook
  have hgone : (b.CancelOrder m.order_id).containsId m.order_id = false :=
    ((CancelOrder_spec b m.order_id hwf).2 hcontains).1
  have heq : b.MatchOrder m = (b.CancelOrder m.order_id).AddOrder
      (m.ToOrderPointer e.order_type) := by
    rw [OrderBook.MatchOrder,
      if_neg (by simp [hcontains]), hlook]
  have hreject : (b.CancelOrder m.order_id).AddOrder
      (m.ToOrderPointer e.order_type) = ([], b.CancelOrder m.order_id) := by
    rw [OrderBook.AddOrder,
      if_neg (by
        show ¬(b.CancelOrder m.order_id).containsId m.order_id = true
        rw [hgone]
        simp),
      if_pos (by
        show (e.order_type = OrderType.FillAndKill &&
          !((b.CancelOrder m.order_id).CanMatch m.side m.price)) = true
        rw [htype, hnc]
        rfl)]
  obtain ⟨h1, h2, h3, h4, h5, h6⟩ :=
    (CancelOrder_spec b m.order_id hwf).2 hcontains
  rw [heq, hreject]
  exact ⟨rfl, rfl, h1, h2, h3, h4⟩

theorem MatchOrder_fak_deletes_witness :
    bookB.WF ∧
    (lookupEntry bookB.orders 2 =
      some ⟨Side.Buy, 100, OrderType.FillAndKill⟩) ∧
    ((bookB.CancelOrder 2).CanMatch Side.Buy 100 = false) ∧
    ((bookB.MatchOrder ⟨2, Side.Buy, 100, 5⟩).1 = [] ∧
    (bookB.MatchOrder ⟨2, Side.Buy, 100, 5⟩).2 = bookB.CancelOrder 2 ∧
    ((bookB.MatchOrder ⟨2, Side.Buy, 100, 5⟩).2).containsId 2 = false ∧
    2 ∉ sideIds ((bookB.MatchOrder ⟨2, Side.Buy, 100, 5⟩).2).bids ∧
    2 ∉ sideIds ((bookB.MatchOrder ⟨2, Side.Buy, 100, 5⟩).2).asks ∧
    ((bookB.MatchOrder ⟨2, Side.Buy, 100, 5⟩).2).Size + 1 = bookB.Size) :=
  ⟨by decide, by decide, by decide,
   MatchOrder_fak_deletes bookB ⟨2, Side.Buy, 100, 5⟩
     ⟨Side.Buy, 100, OrderType.FillAndKill⟩ (by decide) (by decide) rfl
     (by decide)⟩

/-! ## The depth query -/

lemma foldl_add_remaining (q : List Order) :
    q.foldl
        (fun running_sum o =>
          (running_sum + o.remaining_quantity) % 2 ^ 32) 0 =
      (q.map (fun o => o.remaining_quantity)).sum % 2 ^ 32 := by
  have aux : ∀ (a : Nat),
      q.foldl
          (fun running_sum o =>
            (running_sum + o.remaining_quantity) % 2 ^ 32) (a % 2 ^ 32) =
        (a + (q.map (fun o => o.remaining_quantity)).sum) % 2 ^ 32 := by
    induction q with
    | nil => intro a; simp
    | cons o rest ih =>
      intro a
      simp only [List.foldl_cons, List.map_cons, List.sum_cons]
      rw [Nat.mod_add_mod, ih (a + o.remaining_quantity), Nat.add_assoc]
  have h0 := aux 0
  simpa using h0

/-- Two GoodTillCancel buys whose remaining quantities sum past `2 ^ 32`:
the `uint32_t` accumulator of `GetOrderInfos` wraps on the level they
share. -/
def bigBuy1 : Order :=
  ⟨OrderType.GoodTillCancel, 41, Side.Buy, 100, 3000000000, 3000000000⟩

def bigBuy2 : Order :=
  ⟨OrderType.GoodTillCancel, 42, Side.Buy, 100, 3000000000, 3000000000⟩

/-- The book after adding `bigBuy1` to the empty book. -/
def bigBook1 : OrderBook :=
  ⟨[(100, [bigBuy1])], [],
   [(41, ⟨Side.Buy, 100, OrderType.GoodTillCancel⟩)]⟩

/-- The book after then adding `bigBuy2`: both rest at level 100 with
`3000000000 + 3000000000 = 6000000000 ≥ 2 ^ 32` remaining in total. -/
def bigBook : OrderBook :=
  ⟨[(100, [bigBuy1, bigBuy2])], [],
   [(42, ⟨Side.Buy, 100, OrderType.GoodTillCancel⟩),
    (41, ⟨Side.Buy, 100, OrderType.GoodTillCancel⟩)]⟩

lemma addOrder_bigBuy1 :
    OrderBook.empty.AddOrder bigBuy1 = ([], bigBook1) := by
  rw [AddOrder_eq _ _ (by decide) (by decide)]
  rw [show OrderBook.empty.insertOrder bigBuy1 = bigBook1 from by decide]
  exact MatchOrders_terminal_no_match bigBook1
    (by intro bp bid bt rb ap ask at1 ra hb ha; simp [bigBook1] at ha)

lemma addOrder_bigBuy2 :
    bigBook1.AddOrder bigBuy2 = ([], bigBook) := by
  rw [AddOrder_eq _ _ (by decide) (by decide)]
  rw [show bigBook1.insertOrder bigBuy2 = bigBook from by decide]
  exact MatchOrders_terminal_no_match bigBook
    (by intro bp bid bt rb ap ask at1 ra hb ha; simp [bigBook] at ha)

/-- The claim as stated is false of the code: on the book reached by two
`AddOrder` calls of 3000000000-quantity buys at one price, the depth
entry carries `6000000000 % 2 ^ 32 = 1705032704`, not the sum
`6000000000` of the remaining quantities — `std::accumulate` runs in
`Quantity = std::uint32_t` and wraps. -/
theorem GetOrderInfos_wrap_cex :
    ((OrderBook.empty.AddOrder bigBuy1).2.AddOrder bigBuy2).2 = bigBook ∧
    (bigBook.GetOrderInfos).bids = [LevelInfo.mk 100 1705032704] ∧
    bigBook.bids.map (fun l =>
      (l.2.map (fun o => o.remaining_quantity)).sum) = [6000000000] ∧
    (bigBook.GetOrderInfos).bids ≠ bigBook.bids.map (fun l =>
      LevelInfo.mk l.1 ((l.2.map (fun o => o.remaining_quantity)).sum)) := by
  refine ⟨?_, by decide, by decide, by decide⟩
  rw [addOrder_bigBuy1, addOrder_bigBuy2]

/-- C9, amended — the depth query: for each side, one entry per price
level present, in the side's order in the book (bids descending, asks
ascending by price), pairing the level's price with the sum *modulo
`2 ^ 32`* of the remaining quantities of the orders resting at it (the
accumulator is the 32-bit unsigned `Quantity`); whenever a level's true
sum is below `2 ^ 32` — every practical book — the entry is exactly that
sum.  `GetOrderInfos` is a pure function of the book, so the book is
unchanged. -/
theorem GetOrderInfos_spec (b : OrderBook) (hwf : b.WF) :
    (b.GetOrderInfos).bids = b.bids.map (fun l => LevelInfo.mk l.1
      ((l.2.map (fun o => o.remaining_quantity)).sum % 2 ^ 32)) ∧
    (b.GetOrderInfos).asks = b.asks.map (fun l => LevelInfo.mk l.1
      ((l.2.map (fun o => o.remaining_quantity)).sum % 2 ^ 32)) ∧
    (∀ l ∈ b.bids ++ b.asks,
      (l.2.map (fun o => o.remaining_quantity)).sum < 2 ^ 32 →
      CreateLevelInfos l.1 l.2 = LevelInfo.mk l.1
        ((l.2.map (fun o => o.remaining_quantity)).sum)) ∧
    List.Pairwise (fun u v => u.price > v.price) (b.GetOrderInfos).bids ∧
    List.Pairwise (fun u v => u.price < v.price) (b.GetOrderInfos).asks := by
  have hfun : (fun l : Level => CreateLevelInfos l.1 l.2) =
      (fun l : Level => LevelInfo.mk l.1
        ((l.2.map (fun o => o.remaining_quantity)).sum % 2 ^ 32)) := by
    funext l
    rw [CreateLevelInfos, foldl_add_remaining]
  have hbids : (b.GetOrderInfos).bids = b.bids.map (fun l =>
      LevelInfo.mk l.1
        ((l.2.map (fun o => o.remaining_quantity)).sum % 2 ^ 32)) := by
    rw [OrderBook.GetOrderInfos, hfun]
  have hasks : (b.GetOrderInfos).asks = b.asks.map (fun l =>
      LevelInfo.mk l.1
        ((l.2.map (fun o => o.remaining_quantity)).sum % 2 ^ 32)) := by
    rw [OrderBook.GetOrderInfos, hfun]
  refine ⟨hbids, hasks, ?_, ?_, ?_⟩
  · intro l hl hlt
    rw [CreateLevelInfos, foldl_add_remaining, Nat.mod_eq_of_lt hlt]
  · rw [hbids]
    have hord := hwf.2.2.1
    rw [levelsOrdered] at hord
    refine List.Pairwise.map _ ?_ hord
    intro u v huv
    simpa using huv
  · rw [hasks]
    have hord := hwf.2.2.2.1
    rw [levelsOrdered] at hord
    refine List.Pairwise.map _ ?_ hord
    intro u v huv
    simpa using huv

theorem GetOrderInfos_spec_witness :
    wBook.WF ∧
    ((wBook.GetOrderInfos).bids = wBook.bids.map (fun l => LevelInfo.mk l.1
      ((l.2.map (fun o => o.remaining_quantity)).sum % 2 ^ 32)) ∧
    (wBook.GetOrderInfos).asks = wBook.asks.map (fun l => LevelInfo.mk l.1
      ((l.2.map (fun o => o.remaining_quantity)).sum % 2 ^ 32)) ∧
    (∀ l ∈ wBook.bids ++ wBook.asks,
      (l.2.map (fun o => o.remaining_quantity)).sum < 2 ^ 32 →
      CreateLevelInfos l.1 l.2 = LevelInfo.mk l.1
        ((l.2.map (fun o => o.remaining_quantity)).sum)) ∧
    List.Pairwise (fun u v => u.price > v.price)
      (wBook.GetOrderInfos).bids ∧
    List.Pairwise (fun u v => u.price < v.price)
      (wBook.GetOrderInfos).asks) :=
  ⟨by decide, GetOrderInfos_spec wBook (by decide)⟩

/-! ## Price-time priority -/

/-- The trade's leg on the given side names the given order id. -/
def tradeFillsId (s : Side) (t : Trade) (id : OrderId) : Bool :=
  match s with
  | Side.Buy => t.bid_trade.order_id == id
  | Side.Sell => t.ask_trade.order_id == id

lemma stepBook_allIds_sublist (x : OrderBook) (bp : Price) (bid : Order)
    (bt : List Order) (restB : List Level) (ap : Price) (ask : Order)
    (at1 : List Order) (restA : List Level)
    (hb : x.bids = (bp, bid :: bt) :: restB)
    (ha : x.asks = (ap, ask :: at1) :: restA) :
    ((stepBook x bp bid bt restB ap ask at1 restA).allIds).Sublist
      x.allIds := by
  have hallx : x.allIds =
      (bid.order_id :: bt.map (fun o => o.order_id) ++ sideIds restB) ++
      (ask.order_id :: at1.map (fun o => o.order_id) ++ sideIds restA) := by
    rw [OrderBook.allIds, hb, ha, sideIds_cons, sideIds_cons]
    simp
  rw [hallx]
  have h1 : (stepBook x bp bid bt restB ap ask at1 restA).allIds =
      ((if bid.remaining_quantity -
          min bid.remaining_quantity ask.remaining_quantity = 0 then bt
        else { bid with
            remaining_quantity := bid.remaining_quantity -
              min bid.remaining_quantity ask.remaining_quantity } :: bt).map
          (fun o => o.order_id) ++ sideIds restB) ++
      ((if ask.remaining_quantity -
          min bid.remaining_quantity ask.remaining_quantity = 0 then at1
        else { ask with
            remaining_quantity := ask.remaining_quantity -
              min bid.remaining_quantity ask.remaining_quantity } :: at1).map
          (fun o => o.order_id) ++ sideIds restA) := by
    rw [OrderBook.allIds, stepBook]
    rw [sideIds_cons_if, sideIds_cons_if]
  rw [h1]
  refine List.Sublist.append (List.Sublist.append ?_ (List.Sublist.refl _))
    (List.Sublist.append ?_ (List.Sublist.refl _))
  · split
    · exact (List.Sublist.refl _).cons _
    · exact (List.Sublist.refl _).cons₂ _
  · split
    · exact (List.Sublist.refl _).cons _
    · exact (List.Sublist.refl _).cons₂ _

lemma stepBook_bid_gone (x : OrderBook) (bp : Price) (bid : Order)
    (bt : List Order) (restB : List Level) (ap : Price) (ask : Order)
    (at1 : List Order) (restA : List Level)
    (hb : x.bids = (bp, bid :: bt) :: restB)
    (ha : x.asks = (ap, ask :: at1) :: restA)
    (hnd : x.allIds.Nodup)
    (hbf : bid.remaining_quantity -
      min bid.remaining_quantity ask.remaining_quantity = 0) :
    bid.order_id ∉
      (stepBook x bp bid bt restB ap ask at1 restA).allIds := by
  have h1 : (stepBook x bp bid bt restB ap ask at1 restA).allIds =
      (bt.map (fun o => o.order_id) ++ sideIds restB) ++
      ((if ask.remaining_quantity -
          min bid.remaining_quantity ask.remaining_quantity = 0 then at1
        else { ask with
            remaining_quantity := ask.remaining_quantity -
              min bid.remaining_quantity ask.remaining_quantity } :: at1).map
          (fun o => o.order_id) ++ sideIds restA) := by
    rw [OrderBook.allIds, stepBook]
    rw [sideIds_cons_if, sideIds_cons_if, if_pos hbf]
  rw [h1]
  have hallx : x.allIds =
      (bid.order_id :: (bt.map (fun o => o.order_id) ++ sideIds restB)) ++
      (ask.order_id :: (at1.map (fun o => o.order_id) ++ sideIds restA)) := by
    rw [OrderBook.allIds, hb, ha, sideIds_cons, sideIds_cons]
    simp
  rw [hallx] at hnd
  obtain ⟨h2, h3, hdisj⟩ := List.nodup_append.mp hnd
  rw [List.nodup_cons] at h2
  intro hc
  rcases List.mem_append.mp hc with hm | hm
  · exact h2.1 hm
  · refine @hdisj bid.order_id (List.mem_cons_self _ _) ?_
    rcases List.mem_append.mp hm with hm2 | hm2
    · have hsub : ((if ask.remaining_quantity -
          min bid.remaining_quantity ask.remaining_quantity = 0 then at1
        else { ask with
            remaining_quantity := ask.remaining_quantity -
              min bid.remaining_quantity ask.remaining_quantity } :: at1).map
          (fun o => o.order_id)).Sublist
          (ask.order_id :: at1.map (fun o => o.order_id)) := by
        split
        · exact (List.Sublist.refl _).cons _
        · exact (List.Sublist.refl _).cons₂ _
      have := hsub.subset hm2
      rcases List.mem_cons.mp this with h4 | h4
      · rw [h4]
        exact List.mem_cons_self _ _
      · exact List.mem_cons_of_mem _ (List.mem_append_left _ h4)
    · exact List.mem_cons_of_mem _ (List.mem_append_right _ hm2)

lemma stepBook_ask_gone (x : OrderBook) (bp : Price) (bid : Order)
    (bt : List Order) (restB : List Level) (ap : Price) (ask : Order)
    (at1 : List Order) (restA : List Level)
    (hb : x.bids = (bp, bid :: bt) :: restB)
    (ha : x.asks = (ap, ask :: at1) :: restA)
    (hnd : x.allIds.Nodup)
    (haf : ask.remaining_quantity -
      min bid.remaining_quantity ask.remaining_quantity = 0) :
    ask.order_id ∉
      (stepBook x bp bid bt restB ap ask at1 restA).allIds := by
  have h1 : (stepBook x bp bid bt restB ap ask at1 restA).allIds =
      ((if bid.remaining_quantity -
          min bid.remaining_quantity ask.remaining_quantity = 0 then bt
        else { bid with
            remaining_quantity := bid.remaining_quantity -
              min bid.remaining_quantity ask.remaining_quantity } :: bt).map
          (fun o => o.order_id) ++ sideIds restB) ++
      (at1.map (fun o => o.order_id) ++ sideIds restA) := by
    rw [OrderBook.allIds, stepBook]
    rw [sideIds_cons_if, sideIds_cons_if, if_pos haf]
  rw [h1]
  have hallx : x.allIds =
      (bid.order_id :: (bt.map (fun o => o.order_id) ++ sideIds restB)) ++
      (ask.order_id :: (at1.map (fun o => o.order_id) ++ sideIds restA)) := by
    rw [OrderBook.allIds, hb, ha, sideIds_cons, sideIds_cons]
    simp
  rw [hallx] at hnd
  obtain ⟨h2, h3, hdisj⟩ := List.nodup_append.mp hnd
  rw [List.nodup_cons] at h3
  intro hc
  rcases List.mem_append.mp hc with hm | hm
  · refine @hdisj ask.order_id ?_ (List.mem_cons_self _ _)
    rcases List.mem_append.mp hm with hm2 | hm2
    · have hsub : ((if bid.remaining_quantity -
          min bid.remaining_quantity ask.remaining_quantity = 0 then bt
        else { bid with
            remaining_quantity := bid.remaining_quantity -
              min bid.remaining_quantity ask.remaining_quantity } :: bt).map
          (fun o => o.order_id)).Sublist
          (bid.order_id :: bt.map (fun o => o.order_id)) := by
        split
        · exact (List.Sublist.refl _).cons _
        · exact (List.Sublist.refl _).cons₂ _
      have := hsub.subset hm2
      rcases List.mem_cons.mp this with h4 | h4
      · rw [h4]
        exact List.mem_cons_self _ _
      · exact List.mem_cons_of_mem _ (List.mem_append_left _ h4)
    · exact List.mem_cons_of_mem _ (List.mem_append_right _ hm2)
  · exact h3.1 hm

/-- The matching loop emits no trade leg for an id not resting in the
book. -/
lemma MatchOrders_no_fills (b : OrderBook) (s : Side) (id : OrderId) :
    id ∉ b.allIds →
    ∀ t ∈ (b.MatchOrders).1, tradeFillsId s t id = false := by
  induction b using OrderBook.MatchOrders.induct with
  | case1 x bp bid bt restB ap ask at1 restA hb ha hlt =>
    rw [MatchOrders_terminal_lt x bp bid bt restB ap ask at1 restA hb ha hlt]
    intro _ t ht
    cases ht
  | case3 x h =>
    rw [MatchOrders_terminal_no_match x h]
    intro _ t ht
    cases ht
  | case2 x bp bid bt restB ap ask at1 restA hb ha hlt quantity bid_after
      ask_after orders1 orders2 bid_queue ask_queue new_bids new_asks IH =>
    intro hid t ht
    rw [MatchOrders_step_eq x bp bid bt restB ap ask at1 restA hb ha hlt]
      at ht
    have hstep : stepBook x bp bid bt restB ap ask at1 restA =
        OrderBook.mk new_bids new_asks orders2 := rfl
    have hbid_in : bid.order_id ∈ x.allIds := by
      rw [OrderBook.allIds, hb, sideIds_cons]
      simp
    have hask_in : ask.order_id ∈ x.allIds := by
      rw [OrderBook.allIds, ha, sideIds_cons]
      simp
    rcases List.mem_cons.mp ht with h1 | h1
    · rw [h1]
      cases s
      · simp only [tradeFillsId, beq_eq_false_iff_ne, ne_eq]
        intro hc
        exact hid (hc ▸ hbid_in)
      · simp only [tradeFillsId, beq_eq_false_iff_ne, ne_eq]
        intro hc
        exact hid (hc ▸ hask_in)
    · refine IH ?_ t (by rw [hstep] at h1; exact h1)
      intro hc
      exact hid ((stepBook_allIds_sublist x bp bid bt restB ap ask at1
        restA hb ha).subset hc)

lemma queue_ids_nodup (levels : List Level) (p : Price) (q : List Order)
    (h : (p, q) ∈ levels) (hnd : (sideIds levels).Nodup) :
    (q.map (fun o => o.order_id)).Nodup := by
  induction levels with
  | nil => cases h
  | cons lv rest ih =>
    rw [sideIds_cons] at hnd
    rcases List.mem_cons.mp h with h1 | h1
    · have : q = lv.2 := by rw [← h1]
      rw [this]
      exact hnd.of_append_left
    · exact ih h1 hnd.of_append_right

lemma split_ids_ne (l1 l2 l3 : List Order) (xo yo : Order)
    (hnd : ((l1 ++ xo :: (l2 ++ yo :: l3)).map
      (fun o => o.order_id)).Nodup) :
    xo.order_id ≠ yo.order_id := by
  rw [List.map_append, List.map_cons] at hnd
  have h1 := hnd.of_append_right
  rw [List.nodup_cons] at h1
  intro hc
  exact h1.1 (by
    rw [hc, List.map_append, List.map_cons]
    exact List.mem_append_right _ (List.mem_cons_self _ _))

/-- Filter separation: for two orders resting in the same queue, every
trade leg naming the earlier order precedes every trade leg naming the
later one in the matching loop's trade list. -/
lemma MatchOrders_fifo (b : OrderBook) :
    ∀ (s : Side) (p : Price) (l1 l2 l3 : List Order) (xo yo : Order),
      (p, l1 ++ xo :: (l2 ++ yo :: l3)) ∈ b.sideLevels s →
      b.allIds.Nodup →
      ((b.MatchOrders).1.filter (fun t =>
          tradeFillsId s t xo.order_id || tradeFillsId s t yo.order_id)) =
        ((b.MatchOrders).1.filter (fun t =>
          tradeFillsId s t xo.order_id)) ++
        ((b.MatchOrders).1.filter (fun t =>
          tradeFillsId s t yo.order_id)) := by
  induction b using OrderBook.MatchOrders.induct with
  | case1 x bp bid bt restB ap ask at1 restA hb ha hlt =>
    rw [MatchOrders_terminal_lt x bp bid bt restB ap ask at1 restA hb ha hlt]
    intro s p l1 l2 l3 xo yo hlv hnd
    simp
  | case3 x h =>
    rw [MatchOrders_terminal_no_match x h]
    intro s p l1 l2 l3 xo yo hlv hnd
    simp
  | case2 x bp bid bt restB ap ask at1 restA hb ha hlt quantity bid_after
      ask_after orders1 orders2 bid_queue ask_queue new_bids new_asks IH =>
    intro s p l1 l2 l3 xo yo hlv hnd
    rw [MatchOrders_step_eq x bp bid bt restB ap ask at1 restA hb ha hlt]
    have hstep : stepBook x bp bid bt restB ap ask at1 restA =
        OrderBook.mk new_bids new_asks orders2 := rfl
    rw [hstep]
    have hnd2 : (OrderBook.mk new_bids new_asks orders2).allIds.Nodup :=
      hnd.sublist (by
        rw [← hstep]
        exact stepBook_allIds_sublist x bp bid bt restB ap ask at1 restA
          hb ha)
    have hndBA : (sideIds x.bids ++ sideIds x.asks).Nodup := hnd
    cases s with
    | Buy =>
      simp only [OrderBook.sideLevels] at hlv ⊢
      rw [hb] at hlv
      have hndB : (sideIds x.bids).Nodup := hndBA.of_append_left
      rcases List.mem_cons.mp hlv with hl1 | hl1
      · have hp : p = bp := (Prod.ext_iff.mp hl1).1
        have hqeq : l1 ++ xo :: (l2 ++ yo :: l3) = bid :: bt :=
          (Prod.ext_iff.mp hl1).2
        have hqnd : ((l1 ++ xo :: (l2 ++ yo :: l3)).map
            (fun o => o.order_id)).Nodup := by
          rw [hqeq]
          exact queue_ids_nodup x.bids bp (bid :: bt)
            (by rw [hb]; exact List.mem_cons_self _ _) hndB
        have hxy := split_ids_ne l1 l2 l3 xo yo hqnd
        cases l1 with
        | nil =>
          rw [List.nil_append] at hqeq
          obtain ⟨hxo, hbt⟩ := List.cons.inj hqeq
          subst hxo
          rw [List.filter_cons_of_pos (by simp [tradeFillsId]),
            List.filter_cons_of_pos (by simp [tradeFillsId]),
            List.filter_cons_of_neg (by simp [tradeFillsId, hxy]),
            List.cons_append]
          by_cases hbf : bid_after.remaining_quantity = 0
          · have hgone : xo.order_id ∉
                (OrderBook.mk new_bids new_asks orders2).allIds := by
              rw [← hstep]
              exact stepBook_bid_gone x bp xo bt restB ap ask at1 restA hb
                ha hnd hbf
            have hnox := MatchOrders_no_fills
              (OrderBook.mk new_bids new_asks orders2) Side.Buy
              xo.order_id hgone
            have hfx : ((OrderBook.mk new_bids new_asks
                orders2).MatchOrders).1.filter (fun t =>
                  tradeFillsId Side.Buy t xo.order_id) = [] :=
              List.filter_eq_nil_iff.mpr (fun t ht => by rw [hnox t ht]; simp)
            have hcongr : ((OrderBook.mk new_bids new_asks
                orders2).MatchOrders).1.filter (fun t =>
                  tradeFillsId Side.Buy t xo.order_id ||
                  tradeFillsId Side.Buy t yo.order_id) =
                ((OrderBook.mk new_bids new_asks
                orders2).MatchOrders).1.filter (fun t =>
                  tradeFillsId Side.Buy t yo.order_id) :=
              List.filter_congr (fun t ht => by
                rw [hnox t ht, Bool.false_or])
            rw [hcongr, hfx, List.nil_append]
          · have hbqv : bid_queue = bid_after :: (l2 ++ yo :: l3) := by
              rw [show bid_queue = if bid_after.remaining_quantity = 0
                then bt else bid_after :: bt from rfl, if_neg hbf, ← hbt]
            have hnbv : new_bids =
                (bp, bid_after :: (l2 ++ yo :: l3)) :: restB := by
              rw [show new_bids = if bid_queue.isEmpty then restB
                else (bp, bid_queue) :: restB from rfl, hbqv]
              rfl
            have hmem2 : (bp, [] ++ bid_after :: (l2 ++ yo :: l3)) ∈
                (OrderBook.mk new_bids new_asks orders2).sideLevels
                  Side.Buy := by
              simp only [OrderBook.sideLevels]
              rw [hnbv, List.nil_append]
              exact List.mem_cons_self _ _
            refine congrArg (List.cons _) ?_
            exact IH Side.Buy bp [] l2 l3 bid_after yo hmem2 hnd2
        | cons z l1t =>
          rw [List.cons_append] at hqeq
          obtain ⟨hz, hbt⟩ := List.cons.inj hqeq
          have hxmem : xo.order_id ∈ (l1t ++ xo :: (l2 ++ yo :: l3)).map
              (fun o => o.order_id) :=
            List.mem_map_of_mem _
              (List.mem_append_right _ (List.mem_cons_self _ _))
          have hymem : yo.order_id ∈ (l1t ++ xo :: (l2 ++ yo :: l3)).map
              (fun o => o.order_id) :=
            List.mem_map_of_mem _ (List.mem_append_right _
              (List.mem_cons_of_mem _ (List.mem_append_right _
                (List.mem_cons_self _ _))))
          have hznd : z.order_id ∉ ((l1t ++ xo :: (l2 ++ yo :: l3)).map
              (fun o => o.order_id)) := by
            rw [List.cons_append, List.map_cons, List.nodup_cons] at hqnd
            exact hqnd.1
          have hnx : (bid.order_id == xo.order_id) = false := by
            rw [← hz]
            simp only [beq_eq_false_iff_ne, ne_eq]
            intro hc
            exact hznd (hc ▸ hxmem)
          have hny : (bid.order_id == yo.order_id) = false := by
            rw [← hz]
            simp only [beq_eq_false_iff_ne, ne_eq]
            intro hc
            exact hznd (hc ▸ hymem)
          rw [List.filter_cons_of_neg (by simp [tradeFillsId, hnx, hny]),
            List.filter_cons_of_neg (by simp [tradeFillsId, hnx]),
            List.filter_cons_of_neg (by simp [tradeFillsId, hny])]
          have hbtv : bt = l1t ++ xo :: (l2 ++ yo :: l3) := hbt.symm
          by_cases hbf : bid_after.remaining_quantity = 0
          · have hbqv : bid_queue = l1t ++ xo :: (l2 ++ yo :: l3) := by
              rw [show bid_queue = if bid_after.remaining_quantity = 0
                then bt else bid_after :: bt from rfl, if_pos hbf, hbtv]
            have hnbv : new_bids =
                (bp, bid_queue) :: restB := by
              rw [show new_bids = if bid_queue.isEmpty then restB
                else (bp, bid_queue) :: restB from rfl]
              rw [hbqv]
              cases l1t <;> rfl
            have hmem2 : (bp, l1t ++ xo :: (l2 ++ yo :: l3)) ∈
                (OrderBook.mk new_bids new_asks orders2).sideLevels
                  Side.Buy := by
              simp only [OrderBook.sideLevels]
              rw [hnbv, hbqv]
              exact List.mem_cons_self _ _
            exact IH Side.Buy bp l1t l2 l3 xo yo hmem2 hnd2
          · have hbqv : bid_queue =
                bid_after :: (l1t ++ xo :: (l2 ++ yo :: l3)) := by
              rw [show bid_queue = if bid_after.remaining_quantity = 0
                then bt else bid_after :: bt from rfl, if_neg hbf, hbtv]
            have hnbv : new_bids = (bp, bid_queue) :: restB := by
              rw [show new_bids = if bid_queue.isEmpty then restB
                else (bp, bid_queue) :: restB from rfl, hbqv]
              rfl
            have hmem2 : (bp, (bid_after :: l1t) ++
                xo :: (l2 ++ yo :: l3)) ∈
                (OrderBook.mk new_bids new_asks orders2).sideLevels
                  Side.Buy := by
              simp only [OrderBook.sideLevels]
              rw [hnbv, hbqv, List.cons_append]
              exact List.mem_cons_self _ _
            exact IH Side.Buy bp (bid_after :: l1t) l2 l3 xo yo hmem2 hnd2
      · have hxmem : xo.order_id ∈ sideIds restB :=
          mem_sideIds restB (p, l1 ++ xo :: (l2 ++ yo :: l3)) xo hl1
            (List.mem_append_right _ (List.mem_cons_self _ _))
        have hymem : yo.order_id ∈ sideIds restB :=
          mem_sideIds restB (p, l1 ++ xo :: (l2 ++ yo :: l3)) yo hl1
            (List.mem_append_right _ (List.mem_cons_of_mem _
              (List.mem_append_right _ (List.mem_cons_self _ _))))
        have hsplit : sideIds x.bids =
            (bid.order_id :: bt.map (fun o => o.order_id)) ++
              sideIds restB := by
          rw [hb, sideIds_cons]
          rfl
        rw [hsplit] at hndB
        have hdisjB := List.disjoint_of_nodup_append hndB
        have hnx : (bid.order_id == xo.order_id) = false := by
          simp only [beq_eq_false_iff_ne, ne_eq]
          intro hc
          exact @hdisjB bid.order_id (List.mem_cons_self _ _) (hc ▸ hxmem)
        have hny : (bid.order_id == yo.order_id) = false := by
          simp only [beq_eq_false_iff_ne, ne_eq]
          intro hc
          exact @hdisjB bid.order_id (List.mem_cons_self _ _) (hc ▸ hymem)
        rw [List.filter_cons_of_neg (by simp [tradeFillsId, hnx, hny]),
          List.filter_cons_of_neg (by simp [tradeFillsId, hnx]),
          List.filter_cons_of_neg (by simp [tradeFillsId, hny])]
        have hmem2 : (p, l1 ++ xo :: (l2 ++ yo :: l3)) ∈
            (OrderBook.mk new_bids new_asks orders2).sideLevels
              Side.Buy := by
          simp only [OrderBook.sideLevels]
          rw [show new_bids = if bid_queue.isEmpty then restB
            else (bp, bid_queue) :: restB from rfl]
          split
          · exact hl1
          · exact List.mem_cons_of_mem _ hl1
        exact IH Side.Buy p l1 l2 l3 xo yo hmem2 hnd2
    | Sell =>
      simp only [OrderBook.sideLevels] at hlv ⊢
      rw [ha] at hlv
      have hndA : (sideIds x.asks).Nodup := hndBA.of_append_right
      rcases List.mem_cons.mp hlv with hl1 | hl1
      · have hp : p = ap := (Prod.ext_iff.mp hl1).1
        have hqeq : l1 ++ xo :: (l2 ++ yo :: l3) = ask :: at1 :=
          (Prod.ext_iff.mp hl1).2
        have hqnd : ((l1 ++ xo :: (l2 ++ yo :: l3)).map
            (fun o => o.order_id)).Nodup := by
          rw [hqeq]
          exact queue_ids_nodup x.asks ap (ask :: at1)
            (by rw [ha]; exact List.mem_cons_self _ _) hndA
        have hxy := split_ids_ne l1 l2 l3 xo yo hqnd
        cases l1 with
        | nil =>
          rw [List.nil_append] at hqeq
          obtain ⟨hxo, hat⟩ := List.cons.inj hqeq
          subst hxo
          rw [List.filter_cons_of_pos (by simp [tradeFillsId]),
            List.filter_cons_of_pos (by simp [tradeFillsId]),
            List.filter_cons_of_neg (by simp [tradeFillsId, hxy]),
            List.cons_append]
          by_cases haf : ask_after.remaining_quantity = 0
          · have hgone : xo.order_id ∉
                (OrderBook.mk new_bids new_asks orders2).allIds := by
              rw [← hstep]
              exact stepBook_ask_gone x bp bid bt restB ap xo at1 restA hb
                ha hnd haf
            have hnox := MatchOrders_no_fills
              (OrderBook.mk new_bids new_asks orders2) Side.Sell
              xo.order_id hgone
            have hfx : ((OrderBook.mk new_bids new_asks
                orders2).MatchOrders).1.filter (fun t =>
                  tradeFillsId Side.Sell t xo.order_id) = [] :=
              List.filter_eq_nil_iff.mpr (fun t ht => by rw [hnox t ht]; simp)
            have hcongr : ((OrderBook.mk new_bids new_asks
                orders2).MatchOrders).1.filter (fun t =>
                  tradeFillsId Side.Sell t xo.order_id ||
                  tradeFillsId Side.Sell t yo.order_id) =
                ((OrderBook.mk new_bids new_asks
                orders2).MatchOrders).1.filter (fun t =>
                  tradeFillsId Side.Sell t yo.order_id) :=
              List.filter_congr (fun t ht => by
                rw [hnox t ht, Bool.false_or])
            rw [hcongr, hfx, List.nil_append]
          · have haqv : ask_queue = ask_after :: (l2 ++ yo :: l3) := by
              rw [show ask_queue = if ask_after.remaining_quantity = 0
                then at1 else ask_after :: at1 from rfl, if_neg haf, ← hat]
            have hnav : new_asks =
                (ap, ask_after :: (l2 ++ yo :: l3)) :: restA := by
              rw [show new_asks = if ask_queue.isEmpty then restA
                else (ap, ask_queue) :: restA from rfl, haqv]
              rfl
            have hmem2 : (ap, [] ++ ask_after :: (l2 ++ yo :: l3)) ∈
                (OrderBook.mk new_bids new_asks orders2).sideLevels
                  Side.Sell := by
              simp only [OrderBook.sideLevels]
              rw [hnav, List.nil_append]
              exact List.mem_cons_self _ _
            refine congrArg (List.cons _) ?_
            exact IH Side.Sell ap [] l2 l3 ask_after yo hmem2 hnd2
        | cons z l1t =>
          rw [List.cons_append] at hqeq
          obtain ⟨hz, hat⟩ := List.cons.inj hqeq
          have hxmem : xo.order_id ∈ (l1t ++ xo :: (l2 ++ yo :: l3)).map
              (fun o => o.order_id) :=
            List.mem_map_of_mem _
              (List.mem_append_right _ (List.mem_cons_self _ _))
          have hymem : yo.order_id ∈ (l1t ++ xo :: (l2 ++ yo :: l3)).map
              (fun o => o.order_id) :=
            List.mem_map_of_mem _ (List.mem_append_right _
              (List.mem_cons_of_mem _ (List.mem_append_right _
                (List.mem_cons_self _ _))))
          have hznd : z.order_id ∉ ((l1t ++ xo :: (l2 ++ yo :: l3)).map
              (fun o => o.order_id)) := by
            rw [List.cons_append, List.map_cons, List.nodup_cons] at hqnd
            exact hqnd.1
          have hnx : (ask.order_id == xo.order_id) = false := by
            rw [← hz]
            simp only [beq_eq_false_iff_ne, ne_eq]
            intro hc
            exact hznd (hc ▸ hxmem)
          have hny : (ask.order_id == yo.order_id) = false := by
            rw [← hz]
            simp only [beq_eq_false_iff_ne, ne_eq]
            intro hc
            exact hznd (hc ▸ hymem)
          rw [List.filter_cons_of_neg (by simp [tradeFillsId, hnx, hny]),
            List.filter_cons_of_neg (by simp [tradeFillsId, hnx]),
            List.filter_cons_of_neg (by simp [tradeFillsId, hny])]
          have hatv : at1 = l1t ++ xo :: (l2 ++ yo :: l3) := hat.symm
          by_cases haf : ask_after.remaining_quantity = 0
          · have haqv : ask_queue = l1t ++ xo :: (l2 ++ yo :: l3) := by
              rw [show ask_queue = if ask_after.remaining_quantity = 0
                then at1 else ask_after :: at1 from rfl, if_pos haf, hatv]
            have hnav : new_asks = (ap, ask_queue) :: restA := by
              rw [show new_asks = if ask_queue.isEmpty then restA
                else (ap, ask_queue) :: restA from rfl]
              rw [haqv]
              cases l1t <;> rfl
            have hmem2 : (ap, l1t ++ xo :: (l2 ++ yo :: l3)) ∈
                (OrderBook.mk new_bids new_asks orders2).sideLevels
                  Side.Sell := by
              simp only [OrderBook.sideLevels]
              rw [hnav, haqv]
              exact List.mem_cons_self _ _
            exact IH Side.Sell ap l1t l2 l3 xo yo hmem2 hnd2
          · have haqv : ask_queue =
                ask_after :: (l1t ++ xo :: (l2 ++ yo :: l3)) := by
              rw [show ask_queue = if ask_after.remaining_quantity = 0
                then at1 else ask_after :: at1 from rfl, if_neg haf, hatv]
            have hnav : new_asks = (ap, ask_queue) :: restA := by
              rw [show new_asks = if ask_queue.isEmpty then restA
                else (ap, ask_queue) :: restA from rfl, haqv]
              rfl
            have hmem2 : (ap, (ask_after :: l1t) ++
                xo :: (l2 ++ yo :: l3)) ∈
                (OrderBook.mk new_bids new_asks orders2).sideLevels
                  Side.Sell := by
              simp only [OrderBook.sideLevels]
              rw [hnav, haqv, List.cons_append]
              exact List.mem_cons_self _ _
            exact IH Side.Sell ap (ask_after :: l1t) l2 l3 xo yo hmem2 hnd2
      · have hxmem : xo.order_id ∈ sideIds restA :=
          mem_sideIds restA (p, l1 ++ xo :: (l2 ++ yo :: l3)) xo hl1
            (List.mem_append_right _ (List.mem_cons_self _ _))
        have hymem : yo.order_id ∈ sideIds restA :=
          mem_sideIds restA (p, l1 ++ xo :: (l2 ++ yo :: l3)) yo hl1
            (List.mem_append_right _ (List.mem_cons_of_mem _
              (List.mem_append_right _ (List.mem_cons_self _ _))))
        have hsplit : sideIds x.asks =
            (ask.order_id :: at1.map (fun o => o.order_id)) ++
              sideIds restA := by
          rw [ha, sideIds_cons]
          rfl
        rw [hsplit] at hndA
        have hdisjA := List.disjoint_of_nodup_append hndA
        have hnx : (ask.order_id == xo.order_id) = false := by
          simp only [beq_eq_false_iff_ne, ne_eq]
          intro hc
          exact @hdisjA ask.order_id (List.mem_cons_self _ _) (hc ▸ hxmem)
        have hny : (ask.order_id == yo.order_id) = false := by
          simp only [beq_eq_false_iff_ne, ne_eq]
          intro hc
          exact @hdisjA ask.order_id (List.mem_cons_self _ _) (hc ▸ hymem)
        rw [List.filter_cons_of_neg (by simp [tradeFillsId, hnx, hny]),
          List.filter_cons_of_neg (by simp [tradeFillsId, hnx]),
          List.filter_cons_of_neg (by simp [tradeFillsId, hny])]
        have hmem2 : (p, l1 ++ xo :: (l2 ++ yo :: l3)) ∈
            (OrderBook.mk new_bids new_asks orders2).sideLevels
              Side.Sell := by
          simp only [OrderBook.sideLevels]
          rw [show new_asks = if ask_queue.isEmpty then restA
            else (ap, ask_queue) :: restA from rfl]
          split
          · exact hl1
          · exact List.mem_cons_of_mem _ hl1
        exact IH Side.Sell p l1 l2 l3 xo yo hmem2 hnd2

/-- Witness book for price-time priority: two same-priced bids queued in
submission order against one larger ask. -/
def wFifo31 : Order := Order.mk OrderType.GoodTillCancel 31 Side.Buy 100 5 5

def wFifo32 : Order := Order.mk OrderType.GoodTillCancel 32 Side.Buy 100 5 5

def wFifo33 : Order := Order.mk OrderType.GoodTillCancel 33 Side.Sell 100 7 7

def wFifo34 : Order := Order.mk OrderType.GoodTillCancel 34 Side.Buy 100 5 5

def wFifoBook : OrderBook :=
  OrderBook.mk [(100, [wFifo31, wFifo32])] [(100, [wFifo33])]
    [(31, OrderEntry.mk Side.Buy 100 OrderType.GoodTillCancel),
     (32, OrderEntry.mk Side.Buy 100 OrderType.GoodTillCancel),
     (33, OrderEntry.mk Side.Sell 100 OrderType.GoodTillCancel)]

/-- C4: price-time priority. (i) Insertion (`AddOrder` lines 256-268)
appends the new order at the back of its price level's queue on its own
side, so later submissions queue behind earlier ones. (ii) The matching
loop (lines 203-218) always consumes the front of the best level's queue:
for any two orders resting in the same queue, with the book's ids
distinct, every trade leg that fills the earlier order precedes every
trade leg that fills the later one — the trade list filtered to the two
ids is exactly (fills of the earlier) ++ (fills of the later), so
same-priced orders fill in strict submission order. -/
theorem price_time_priority :
    (∀ (b : OrderBook) (o : Order),
      levelsOrdered (fun x y => x > y) b.bids →
      levelsOrdered (fun x y => x < y) b.asks →
      queueAt ((b.insertOrder o).sideLevels o.side) o.price =
        queueAt (b.sideLevels o.side) o.price ++ [o]) ∧
    (∀ (b : OrderBook) (s : Side) (p : Price) (l1 l2 l3 : List Order)
        (xo yo : Order),
      (p, l1 ++ xo :: (l2 ++ yo :: l3)) ∈ b.sideLevels s →
      b.allIds.Nodup →
      ((b.MatchOrders).1.filter (fun t =>
          tradeFillsId s t xo.order_id ||
          tradeFillsId s t yo.order_id)) =
        ((b.MatchOrders).1.filter (fun t =>
          tradeFillsId s t xo.order_id)) ++
        ((b.MatchOrders).1.filter (fun t =>
          tradeFillsId s t yo.order_id))) := by
  constructor
  · intro b o hbo hao
    cases ho : o.side with
    | Buy =>
      simp only [OrderBook.sideLevels]
      have hins : (b.insertOrder o).bids = insertBid b.bids o := by
        simp [OrderBook.insertOrder, ho]
      rw [hins]
      exact queueAt_insertLevels _ gtB_irr gtB_trans b.bids o hbo
    | Sell =>
      simp only [OrderBook.sideLevels]
      have hins : (b.insertOrder o).asks = insertAsk b.asks o := by
        simp [OrderBook.insertOrder, ho]
      rw [hins]
      exact queueAt_insertLevels _ ltB_irr ltB_trans b.asks o hao
  · exact MatchOrders_fifo

theorem price_time_priority_witness :
    (queueAt ((wFifoBook.insertOrder wFifo34).sideLevels Side.Buy) 100 =
      queueAt (wFifoBook.sideLevels Side.Buy) 100 ++ [wFifo34]) ∧
    ((wFifoBook.MatchOrders).1.filter (fun t =>
        tradeFillsId Side.Buy t 31 || tradeFillsId Side.Buy t 32)) =
      ((wFifoBook.MatchOrders).1.filter (fun t =>
        tradeFillsId Side.Buy t 31)) ++
      ((wFifoBook.MatchOrders).1.filter (fun t =>
        tradeFillsId Side.Buy t 32)) :=
  ⟨price_time_priority.1 wFifoBook wFifo34 (by decide) (by decide),
   price_time_priority.2 wFifoBook Side.Buy 100 [] [] [] wFifo31 wFifo32
     (List.mem_cons_self _ _) (by decide)⟩
